import Mathlib

/-!
The per-frame animation pipeline of `app()` in ggsample05.

Verification development for `src/ggsample05.cpp`.

* The part of `app()` that is in the source (the clock-to-`t` mapping, the fixed
  path, the fixed arguments and the order in which the library is called) is
  embedded directly.  `double` and `float` values are the rationals they
  denote; the two roundings that the source performs (the `double` division and
  the `static_cast<float>`) are modelled exactly by `fpRound`.
* The headers `matrix.h`, `spline.h` and `quaternion.h` are not part of the
  source tree.  `frame` takes the library as a parameter (`Lib`); a second set
  of definitions, each marked "Modelled from the spec", follows the prose
  specification and works in exact arithmetic over an ordered field.
* `multiplyF32` is the matrix product with the binary32 roundings of the
  `GLfloat` arrays; `multiply` is the product before rounding.
* `app` is the drawing loop on explicit memory: the arrays of the loop body,
  which the source does not initialise, and a state that the library may keep
  between calls (`CLib`).
-/

namespace GgSample05

/-! ## Binary floating point: round to nearest, ties to even -/

/-- Nearest integer to `y`, ties going to the even neighbour. -/
def roundHalfEven (y : ℚ) : ℤ :=
  let n := ⌊y⌋
  if y - n < 1 / 2 then n
  else if 1 / 2 < y - n then n + 1
  else if n % 2 = 0 then n else n + 1

/-- Exponent of the unit in the last place of `x` in a binary format with `p`
significand bits whose smallest normal exponent is `emin` (below `2 ^ emin`
the spacing stays that of the subnormals). -/
def ulpExp (p : ℕ) (emin : ℤ) (x : ℚ) : ℤ :=
  max (Int.log 2 |x|) emin - ((p : ℤ) - 1)

/-- IEEE-754 round-to-nearest-even of the exact value `x` into the binary
format `(p, emin)`.  Overflow to infinity is not represented: every value
rounded in this development lies in `[-1, 1]`. -/
def fpRound (p : ℕ) (emin : ℤ) (x : ℚ) : ℚ :=
  if x = 0 then 0
  else roundHalfEven (x / 2 ^ ulpExp p emin x) * 2 ^ ulpExp p emin x

/-- Rounding to binary64 (`double`). -/
def toDouble (x : ℚ) : ℚ := fpRound 53 (-1022) x

/-- Rounding to binary32 (`float`, `GLfloat`). -/
def toFloat (x : ℚ) : ℚ := fpRound 24 (-126) x

/-- Integer part of `q`, rounding towards zero. -/
def truncToInt (q : ℚ) : ℤ := if 0 ≤ q then ⌊q⌋ else ⌈q⌉

/-- C `fmod(x, y)`: `x - n * y` where `n` is `x / y` truncated towards zero.
The C library computes this remainder without rounding error. -/
def fmod (x y : ℚ) : ℚ := x - truncToInt (x / y) * y

/-! ## Data of `app()` -/

/-- Array type `float[3]`. -/
abbrev Vec3 (F : Type) := Fin 3 → F

/-- Array type `float[4]`, components `x, y, z, w`. -/
abbrev Quat (F : Type) := Fin 4 → F

/-- Array type `GLfloat[16]`, column-major: entry (row `r`, column `c`) is at index `4 * c + r`. -/
abbrev Mat (F : Type) := Fin 16 → F

/-- Animation period in seconds: `const double cycle(5.0);` (line 26). -/
def cycle : ℚ := 5

/-- Way points `static const float route[][3]` (lines 70-77); every literal is
exactly representable in binary32. -/
def route (F : Type) [Field F] : List (Vec3 F) :=
  [ ![-2, -1, -3],
    ![0, -2, -2],
    ![-1, -1, -1],
    ![-(1 / 2), -(1 / 2), -(1 / 2)],
    ![0, 0, 0] ]

/-- Transit times `static const float transit[]` (lines 80-87); `0.3f` and
`0.7f` are the binary32 numbers nearest to 3/10 and 7/10. -/
def transit (F : Type) [Field F] : List F :=
  [ 0,
    ((toFloat (3 / 10) : ℚ) : F),
    1 / 2,
    ((toFloat (7 / 10) : ℚ) : F),
    1 ]

/-- Number of way points:
`static const int points(sizeof transit / sizeof transit[0]);` (line 90). -/
def points (F : Type) [Field F] : ℕ := (transit F).length

/-- The functions `app()` calls from `matrix.h`, `quaternion.h` and `spline.h`.
Each C function writes its result through its first pointer argument; here it
returns that result. -/
structure Lib (F : Type) where
  /-- Call `lookat(m, ex, ey, ez, tx, ty, tz, ux, uy, uz)`. -/
  lookat : F → F → F → F → F → F → F → F → F → Mat F
  /-- Call `qmake(q, x, y, z, a)`. -/
  qmake : F → F → F → F → Quat F
  /-- Call `slerp(p, q, r, t)`. -/
  slerp : Quat F → Quat F → F → Quat F
  /-- Call `qrot(m, q)`. -/
  qrot : Quat F → Mat F
  /-- Call `spline(p, route, transit, points, t)`. -/
  spline : List (Vec3 F) → List F → ℕ → F → Vec3 F
  /-- Call `translate(m, x, y, z)`. -/
  translate : F → F → F → Mat F
  /-- Call `multiply(m, a, b)`. -/
  multiply : Mat F → Mat F → Mat F
  /-- Call `perspective(m, fovy, aspect, near, far)`. -/
  perspective : F → F → F → F → Mat F

/-- What one pass of the drawing loop stores in the uniforms `mc` and `t`. -/
structure FrameOutput (F : Type) where
  /-- Matrix passed to `glUniformMatrix4fv(mcLoc, 1, GL_FALSE, mc)`. -/
  mc : Mat F
  /-- Scalar passed to `glUniform1f(tLoc, t)`. -/
  t : ℚ

variable {F : Type} [LinearOrderedField F]

/-- Line 105: `const float t(static_cast<float>(fmod(glfwGetTime(), cycle) / cycle));`
for the clock value `elapsed`.  The quotient is a `double` division, the
cast narrows it to `float`. -/
def frameT (elapsed : ℚ) : ℚ :=
  toFloat (toDouble (fmod elapsed cycle / cycle))

/-- Line 48: the view matrix `mv`, computed once before the loop. -/
def frameMv (L : Lib F) : Mat F :=
  L.lookat 3 4 5 0 0 0 0 1 0

/-- Lines 108-113: the rotation matrix `mr` for the parameter `t`. -/
def frameMr (L : Lib F) (t : ℚ) : Mat F :=
  let q0 := L.qmake 1 0 0 1
  let q1 := L.qmake 0 0 1 2
  let qt := L.slerp q0 q1 (t : F)
  L.qrot qt

/-- Lines 116-119: the translation matrix `mt` for the parameter `t`. -/
def frameMt (L : Lib F) (t : ℚ) : Mat F :=
  let location := L.spline (route F) (transit F) (points F) (t : F)
  L.translate (location 0) (location 1) (location 2)

/-- Line 130: the projection matrix `mp`; `aspect` is `window.getAspect()`. -/
def frameMp (L : Lib F) (aspect : F) : Mat F :=
  L.perspective (1 / 2) aspect 1 15

/-- One pass of the loop body (lines 104-137) for the clock value `elapsed`
and the window aspect `aspect`. -/
def frame (L : Lib F) (elapsed : ℚ) (aspect : F) : FrameOutput F :=
  let mv := frameMv L
  let t := frameT elapsed
  let mr := frameMr L t
  let mt := frameMt L t
  let mm := L.multiply mt mr
  let mw := L.multiply mv mm
  let mp := frameMp L aspect
  let mc := L.multiply mp mw
  { mc := mc, t := t }

/-! ## The library, modelled from the specification

Exact arithmetic over an ordered field `F`; the elementary functions of
`<cmath>` are the fields of `CMath`. -/

/-- Elementary functions used by the library (`sin`, `cos`, `tan`, `acos`, `sqrt`). -/
structure CMath (F : Type) where
  /-- Sine. -/
  sin : F → F
  /-- Cosine. -/
  cos : F → F
  /-- Tangent. -/
  tan : F → F
  /-- Arc cosine. -/
  acos : F → F
  /-- Square root. -/
  sqrt : F → F

/-- Index of the entry in row `r` and column `c` of a column-major 4x4 array. -/
def ix (r c : Fin 4) : Fin 16 := ⟨4 * c.val + r.val, by omega⟩

/-- Modelled from the spec: `multiply` of `matrix.h` is missing from the source
tree.  Spec 4.3: "matrix product a·b (non-commutative)"; entry (r, c) of the
result is the sum over k of a(r, k) * b(k, c).  This is the product in exact
arithmetic, before any rounding of the result into a `GLfloat` array; the
product with the binary32 roundings is `multiplyF32`. -/
def multiply (a b : Mat F) : Mat F :=
  fun n => ∑ k : Fin 4, a (ix ⟨n.val % 4, by omega⟩ k) * b (ix k ⟨n.val / 4, by omega⟩)

/-- Modelled from the spec: the action of a 4x4 matrix on homogeneous
coordinates that `multiply` chains (spec 4.3: "rightmost matrix applied to
model-space coordinates first"). -/
def transform (m : Mat F) (v : Fin 4 → F) : Fin 4 → F :=
  fun r => ∑ k : Fin 4, m (ix r k) * v k

/-- Modelled from the spec: `translate` of `matrix.h` is missing from the source
tree.  Spec 4.3: "identity with translation components set". -/
def translate (tx ty tz : F) : Mat F :=
  ![1, 0, 0, 0,
    0, 1, 0, 0,
    0, 0, 1, 0,
    tx, ty, tz, 1]

/-- Cross product of two 3-vectors. -/
def cross (a b : Vec3 F) : Vec3 F :=
  ![a 1 * b 2 - a 2 * b 1, a 2 * b 0 - a 0 * b 2, a 0 * b 1 - a 1 * b 0]

/-- Dot product of two 3-vectors. -/
def dot3 (a b : Vec3 F) : F := a 0 * b 0 + a 1 * b 1 + a 2 * b 2

/-- Vector scaled to unit length with the square root of `M`. -/
def normalize3 (M : CMath F) (a : Vec3 F) : Vec3 F :=
  fun i => a i / M.sqrt (dot3 a a)

/-- Modelled from the spec: `lookat` of `matrix.h` is missing from the source
tree.  Spec 4.3: "constructs camera/view matrix via the standard
forward/right/up orthonormal basis derived from (target−eye) and up". -/
def lookat (M : CMath F) (ex ey ez tx ty tz ux uy uz : F) : Mat F :=
  let eye : Vec3 F := ![ex, ey, ez]
  let forward := normalize3 M ![tx - ex, ty - ey, tz - ez]
  let right := normalize3 M (cross forward ![ux, uy, uz])
  let up := cross right forward
  ![right 0, up 0, -forward 0, 0,
    right 1, up 1, -forward 1, 0,
    right 2, up 2, -forward 2, 0,
    -dot3 right eye, -dot3 up eye, dot3 forward eye, 1]

/-- Modelled from the spec: `perspective` of `matrix.h` is missing from the
source tree.  Spec 4.3: "standard symmetric perspective projection" from
the vertical field of view, the aspect, and the near and far distances. -/
def perspective (M : CMath F) (fovy aspect near far : F) : Mat F :=
  let f := 1 / M.tan (fovy / 2)
  ![f / aspect, 0, 0, 0,
    0, f, 0, 0,
    0, 0, (far + near) / (near - far), -1,
    0, 0, 2 * far * near / (near - far), 0]

/-- Dot product of two quaternions. -/
def qdot (q r : Quat F) : F := q 0 * r 0 + q 1 * r 1 + q 2 * r 2 + q 3 * r 3

/-- Quaternion scaled to unit length with the square root of `M`. -/
def qnormalize (M : CMath F) (q : Quat F) : Quat F :=
  fun i => q i / M.sqrt (qdot q q)

/-- Modelled from the spec: `qmake` of `quaternion.h` is missing from the source
tree.  Spec 4.1 `make`: rotation of `angle` about the axis, the axis being
normalized internally "before composing sine/cosine components"; a zero axis
"degrades to identity". -/
def qmake (M : CMath F) (x y z a : F) : Quat F :=
  let l := M.sqrt (x * x + y * y + z * z)
  if l = 0 then ![0, 0, 0, 1]
  else ![x / l * M.sin (a / 2), y / l * M.sin (a / 2), z / l * M.sin (a / 2), M.cos (a / 2)]

/-- The two points the spec of `slerp` leaves open: how close to 1 the dot
product must be to count as "nearly parallel" (`1 - eps ≤ dot`), and which of
the two quaternions is negated for the shorter arc. -/
structure SlerpPolicy (F : Type) where
  /-- Threshold of the linear fallback. -/
  eps : F
  /-- Whether the first (rather than the second) operand is negated. -/
  negateFirst : Bool

/-- Renormalization of spec 4.1: "renormalize if accumulated error is detectable". -/
def renorm (M : CMath F) (q : Quat F) : Quat F :=
  if qdot q q = 1 then q else qnormalize M q

/-- Interpolation along the arc from `a` to `b` whose dot product `c` is
already non-negative (spec 4.1): "nearly parallel (dot ≈ 1)" falls back to
"linear interpolation + renormalization"; otherwise θ = acos(dot) and the
weights are sin((1−t)θ)/sinθ and sin(tθ)/sinθ, and the output is renormalized. -/
def slerpArc (M : CMath F) (P : SlerpPolicy F) (a b : Quat F) (c t : F) : Quat F :=
  if 1 - P.eps ≤ c then
    qnormalize M (fun i => (1 - t) * a i + t * b i)
  else
    let θ := M.acos c
    let w0 := M.sin ((1 - t) * θ) / M.sin θ
    let w1 := M.sin (t * θ) / M.sin θ
    renorm M (fun i => w0 * a i + w1 * b i)

/-- Modelled from the spec: `slerp` of `quaternion.h` is missing from the source
tree.  Spec 4.1: "compute the dot product of q0 and q1; if negative, negate one
quaternion to take the shorter arc", then interpolate along that arc. -/
def slerp (M : CMath F) (P : SlerpPolicy F) (q0 q1 : Quat F) (t : F) : Quat F :=
  let d := qdot q0 q1
  if d < 0 then
    if P.negateFirst then slerpArc M P (-q0) q1 (-d) t
    else slerpArc M P q0 (-q1) (-d) t
  else slerpArc M P q0 q1 d t

/-- Properties of the exact elementary functions on which the end-point
behaviour of `slerp` and the unit length of `qmake` rest. -/
structure CMathLaws (M : CMath F) (eps : F) : Prop where
  /-- The sine of zero is zero. -/
  sin_zero : M.sin 0 = 0
  /-- The square root of one is one. -/
  sqrt_one : M.sqrt 1 = 1
  /-- Sine and cosine lie on the unit circle. -/
  sin_sq_add_cos_sq : ∀ x, M.sin x * M.sin x + M.cos x * M.cos x = 1
  /-- The angle between two quaternions that are not nearly parallel has a
  non-zero sine. -/
  sin_acos_ne_zero : ∀ c, 0 ≤ c → c < 1 - eps → M.sin (M.acos c) ≠ 0

/-- Modelled from the spec: `qrot` of `quaternion.h` is missing from the source
tree.  Spec 4.1 `toRotationMatrix`: "standard quaternion-to-rotation-matrix
conversion", a homogeneous matrix with no translation component. -/
def qrot (q : Quat F) : Mat F :=
  let x := q 0
  let y := q 1
  let z := q 2
  let w := q 3
  ![1 - 2 * (y * y + z * z), 2 * (x * y + z * w), 2 * (z * x - y * w), 0,
    2 * (x * y - z * w), 1 - 2 * (z * z + x * x), 2 * (y * z + x * w), 0,
    2 * (z * x + y * w), 2 * (y * z - x * w), 1 - 2 * (x * x + y * y), 0,
    0, 0, 0, 1]

/-- Standard (uniform) Catmull-Rom blend of four values at the local fraction `u`. -/
def catmullRom (p0 p1 p2 p3 u : F) : F :=
  (2 * p1 + (p2 - p0) * u + (2 * p0 - 5 * p1 + 4 * p2 - p3) * u ^ 2
    + (3 * p1 - p0 - 3 * p2 + p3) * u ^ 3) / 2

/-- Linear scan for the segment `[knots[i], knots[i+1]]` containing `t`: the
first segment whose right end lies beyond `t`, the last segment otherwise. -/
def segmentIndex : List F → F → ℕ
  | _ :: k1 :: k2 :: rest, t =>
      if t < k1 then 0 else segmentIndex (k1 :: k2 :: rest) t + 1
  | _, _ => 0

/-- Modelled from the spec: `spline` of `spline.h` is missing from the source
tree.  Spec 4.2 `evaluate`: fewer than two knots is an error; `t` is clamped
to `[knots[0], knots[last]]`; the segment containing `t` is located and `t` is
remapped to the local fraction `u`; the Catmull-Rom blend runs over the two
end points of the segment and their neighbours, a missing neighbour being
the linear extrapolation of the adjacent points. -/
def evaluate (pts : List (Vec3 F)) (knots : List F) (t : F) : Option (Vec3 F) :=
  if knots.length < 2 then none
  else
    let n := knots.length
    let tc := max (knots.getD 0 0) (min t (knots.getD (n - 1) 0))
    let i := segmentIndex knots tc
    let u := (tc - knots.getD i 0) / (knots.getD (i + 1) 0 - knots.getD i 0)
    let p1 := pts.getD i 0
    let p2 := pts.getD (i + 1) 0
    let p0 := if i = 0 then 2 • p1 - p2 else pts.getD (i - 1) 0
    let p3 := if i + 2 < n then pts.getD (i + 2) 0 else 2 • p2 - p1
    some (fun c => catmullRom (p0 c) (p1 c) (p2 c) (p3 c) u)

/-- The call `spline(p, route, transit, points, t)`: `evaluate` on the first
`points` entries of both arrays.  The C function has no error result; for an
invalid path the result is taken to be the zero vector. -/
def spline (route : List (Vec3 F)) (transit : List F) (points : ℕ) (t : F) : Vec3 F :=
  (evaluate (route.take points) (transit.take points) t).getD 0

/-- The library of the specification. -/
def specLib (M : CMath F) (P : SlerpPolicy F) : Lib F where
  lookat := lookat M
  qmake := qmake M
  slerp := slerp M P
  qrot := qrot
  spline := spline
  translate := translate
  multiply := multiply
  perspective := perspective M

/-! ## Configurations the specification calls invalid (spec 7) -/

/-- Modelled from the spec: `lookAt` is degenerate when eye and target coincide
or when `up` is parallel to the forward vector `target - eye`, that is when
their cross product vanishes. -/
def lookatValid (ex ey ez tx ty tz ux uy uz : F) : Prop :=
  (![tx - ex, ty - ey, tz - ez] : Vec3 F) ≠ 0 ∧
  cross ![tx - ex, ty - ey, tz - ez] ![ux, uy, uz] ≠ 0

instance (ex ey ez tx ty tz ux uy uz : F) :
    Decidable (lookatValid ex ey ez tx ty tz ux uy uz) := by
  unfold lookatValid
  infer_instance

/-- Modelled from the spec: `perspective` "requires near > 0, far > near,
aspect > 0". -/
def perspectiveValid (aspect near far : F) : Prop :=
  0 < aspect ∧ 0 < near ∧ near < far

instance (aspect near far : F) : Decidable (perspectiveValid aspect near far) := by
  unfold perspectiveValid
  infer_instance

/-- Modelled from the spec: a rotation axis must have non-zero length. -/
def axisValid (x y z : F) : Prop := x * x + y * y + z * z ≠ 0

instance (x y z : F) : Decidable (axisValid x y z) := by
  unfold axisValid
  infer_instance

/-- Modelled from the spec: at least two knots, strictly increasing. -/
def knotsValid (knots : List F) : Prop :=
  2 ≤ knots.length ∧ knots.Chain' (· < ·)

instance (knots : List F) : Decidable (knotsValid knots) := by
  unfold knotsValid
  infer_instance

/-- Validity of everything `app()` hands to the library when the window
aspect is `aspect`: the arguments of `lookat` (line 48), of `perspective`
(line 130), of the two `qmake` calls (lines 110-111) and the knots given to
`spline` (line 117). -/
def configValid (aspect : F) : Prop :=
  lookatValid (3 : F) 4 5 0 0 0 0 1 0 ∧
  perspectiveValid aspect (1 : F) 15 ∧
  axisValid (1 : F) 0 0 ∧
  axisValid (0 : F) 0 1 ∧
  knotsValid ((transit F).take (points F))

instance (aspect : F) : Decidable (configValid aspect) := by
  unfold configValid
  infer_instance

/-! ## The matrix product on `GLfloat` arrays -/

/-- Product of two `float` values: the exact product rounded to binary32. -/
def fmul (x y : ℚ) : ℚ := toFloat (x * y)

/-- Sum of two `float` values: the exact sum rounded to binary32. -/
def fadd (x y : ℚ) : ℚ := toFloat (x + y)

/-- Modelled from the spec: `multiply` of `matrix.h` is missing from the source
tree.  The arrays of lines 123 and 129 are `GLfloat[16]`, so each entry of
spec 4.3's "matrix product a·b" is computed in binary32: the four products of
row `r` of `a` with column `c` of `b` are rounded and added in order, each sum
being rounded.  (Overflow is not represented, see `fpRound`.) -/
def multiplyF32 (a b : Mat ℚ) : Mat ℚ :=
  fun n =>
    let r : Fin 4 := ⟨n.val % 4, by omega⟩
    let c : Fin 4 := ⟨n.val / 4, by omega⟩
    fadd (fadd (fadd (fmul (a (ix r 0)) (b (ix 0 c))) (fmul (a (ix r 1)) (b (ix 1 c))))
      (fmul (a (ix r 2)) (b (ix 2 c)))) (fmul (a (ix r 3)) (b (ix 3 c)))

/-- The calls of the library `L` with `multiply` working on `GLfloat` arrays:
the matrix product is computed in binary32 (`multiplyF32`). -/
def Lib.float32 (L : Lib ℚ) : Lib ℚ :=
  ⟨L.lookat, L.qmake, L.slerp, L.qrot, L.spline, L.translate, multiplyF32, L.perspective⟩

/-- The computed array `xf` approximates the exact array `x`: every entry of
`xf` is within `e` of the entry of `x`, and both have magnitude at most `m`. -/
def Near (xf x : Mat ℚ) (m e : ℚ) : Prop :=
  ∀ n, |xf n - x n| ≤ e ∧ |xf n| ≤ m ∧ |x n| ≤ m

instance (xf x : Mat ℚ) (m e : ℚ) : Decidable (Near xf x m e) := by
  unfold Near
  infer_instance

/-! ## The drawing loop with its memory

The library functions of the C headers return nothing: each writes its result
through its first pointer argument, into an array that `app()` declares
without initialising it, and each could keep state of its own between calls.
`CLib` gives the library in that calling convention, `pass` is one pass of
the loop on explicit memory, and `app` is the loop. -/

/-- The library in the calling convention of the C headers.  Every function is
handed the library's own state (`S`) and the present contents of the array
behind its first pointer argument, then its remaining arguments; it leaves a
new state and the new contents of that array. -/
structure CLib (S F : Type) where
  /-- Call `lookat(m, ex, ey, ez, tx, ty, tz, ux, uy, uz)`. -/
  lookat : S → Mat F → F → F → F → F → F → F → F → F → F → S × Mat F
  /-- Call `qmake(q, x, y, z, a)`. -/
  qmake : S → Quat F → F → F → F → F → S × Quat F
  /-- Call `slerp(p, q, r, t)`. -/
  slerp : S → Quat F → Quat F → Quat F → F → S × Quat F
  /-- Call `qrot(m, q)`. -/
  qrot : S → Mat F → Quat F → S × Mat F
  /-- Call `spline(p, route, transit, points, t)`. -/
  spline : S → Vec3 F → List (Vec3 F) → List F → ℕ → F → S × Vec3 F
  /-- Call `translate(m, x, y, z)`. -/
  translate : S → Mat F → F → F → F → S × Mat F
  /-- Call `multiply(m, a, b)`. -/
  multiply : S → Mat F → Mat F → Mat F → S × Mat F
  /-- Call `perspective(m, fovy, aspect, near, far)`. -/
  perspective : S → Mat F → F → F → F → F → S × Mat F

/-- The arrays that the loop body declares without initialising them (lines
108-129).  At the start of a pass they hold whatever the previous pass, or
anything else, left in their place. -/
structure Stack (F : Type) where
  /-- Array `GLfloat mr[16]`. -/
  mr : Mat F
  /-- Array `float q0[4]`. -/
  q0 : Quat F
  /-- Array `float q1[4]`. -/
  q1 : Quat F
  /-- Array `float qt[4]`. -/
  qt : Quat F
  /-- Array `float location[3]`. -/
  location : Vec3 F
  /-- Array `GLfloat mt[16]`. -/
  mt : Mat F
  /-- Array `GLfloat mm[16]`. -/
  mm : Mat F
  /-- Array `GLfloat mw[16]`. -/
  mw : Mat F
  /-- Array `GLfloat mp[16]`. -/
  mp : Mat F
  /-- Array `GLfloat mc[16]`. -/
  mc : Mat F

/-- One pass of the loop body (lines 104-137) on explicit memory: `mv` is the
view matrix of line 48, `s` the state of the library and `k` the contents of
the uninitialised arrays when the pass starts; `elapsed` is what
`glfwGetTime()` returns and `aspect` what `window.getAspect()` returns.  The
result is the library state and the arrays after the pass, and what the pass
stores in the uniforms. -/
def pass {S : Type} (L : CLib S F) (mv : Mat F) (s : S) (k : Stack F) (elapsed : ℚ)
    (aspect : F) : S × Stack F × FrameOutput F :=
  let t := frameT elapsed
  let q0 := L.qmake s k.q0 1 0 0 1
  let q1 := L.qmake q0.1 k.q1 0 0 1 2
  let qt := L.slerp q1.1 k.qt q0.2 q1.2 (t : F)
  let mr := L.qrot qt.1 k.mr qt.2
  let location := L.spline mr.1 k.location (route F) (transit F) (points F) (t : F)
  let mt := L.translate location.1 k.mt (location.2 0) (location.2 1) (location.2 2)
  let mm := L.multiply mt.1 k.mm mt.2 mr.2
  let mw := L.multiply mm.1 k.mw mv mm.2
  let mp := L.perspective mw.1 k.mp (1 / 2) aspect 1 15
  let mc := L.multiply mp.1 k.mc mp.2 mw.2
  (mc.1,
    { mr := mr.2, q0 := q0.2, q1 := q1.2, qt := qt.2, location := location.2,
      mt := mt.2, mm := mm.2, mw := mw.2, mp := mp.2, mc := mc.2 },
    { mc := mc.2, t := t })

/-- The loop `while (window)` of lines 96-153: one pass per entry of `readings`,
the clock value and the window aspect read in that pass; each pass starts on
the library state and the arrays that the pass before it left. -/
def loop {S : Type} (L : CLib S F) (mv : Mat F) :
    S → Stack F → List (ℚ × F) → List (FrameOutput F)
  | _, _, [] => []
  | s, k, r :: rest =>
      (pass L mv s k r.1 r.2).2.2 ::
        loop L mv (pass L mv s k r.1 r.2).1 (pass L mv s k r.1 r.2).2.1 rest

/-- The function `app()`: the view matrix is computed once (line 48) into the
uninitialised array `mv`, holding `mv0` at that point, then the loop runs.
The result lists what each pass stores in the uniforms `mc` and `t`. -/
def app {S : Type} (L : CLib S F) (s : S) (mv0 : Mat F) (k : Stack F)
    (readings : List (ℚ × F)) : List (FrameOutput F) :=
  loop L (L.lookat s mv0 3 4 5 0 0 0 0 1 0).2 (L.lookat s mv0 3 4 5 0 0 0 0 1 0).1 k readings

/-- What spec 4 and 5 say of the library: each function computes its result
from its arguments alone, so the result depends neither on the state of the
library nor on what the result array held before the call (for `spline`:
whenever the knots are a valid configuration). -/
structure CLib.Pure {S : Type} (L : CLib S F) : Prop where
  /-- The result of `lookat` is a function of its arguments. -/
  lookat : ∀ s s' m m' ex ey ez tx ty tz ux uy uz,
    (L.lookat s m ex ey ez tx ty tz ux uy uz).2 = (L.lookat s' m' ex ey ez tx ty tz ux uy uz).2
  /-- The result of `qmake` is a function of its arguments. -/
  qmake : ∀ s s' q q' x y z a, (L.qmake s q x y z a).2 = (L.qmake s' q' x y z a).2
  /-- The result of `slerp` is a function of its arguments. -/
  slerp : ∀ s s' p p' q r t, (L.slerp s p q r t).2 = (L.slerp s' p' q r t).2
  /-- The result of `qrot` is a function of its arguments. -/
  qrot : ∀ s s' m m' q, (L.qrot s m q).2 = (L.qrot s' m' q).2
  /-- The result of `spline` on valid knots is a function of its arguments. -/
  spline : ∀ s s' p p' route transit points t, knotsValid (transit.take points) →
    (L.spline s p route transit points t).2 = (L.spline s' p' route transit points t).2
  /-- The result of `translate` is a function of its arguments. -/
  translate : ∀ s s' m m' x y z, (L.translate s m x y z).2 = (L.translate s' m' x y z).2
  /-- The result of `multiply` is a function of its arguments. -/
  multiply : ∀ s s' m m' a b, (L.multiply s m a b).2 = (L.multiply s' m' a b).2
  /-- The result of `perspective` is a function of its arguments. -/
  perspective : ∀ s s' m m' fovy aspect near far,
    (L.perspective s m fovy aspect near far).2 = (L.perspective s' m' fovy aspect near far).2

/-- The library seen as functions of the arguments: every call made on the
library state `s` and a zero-filled result array. -/
def CLib.toLib {S : Type} (L : CLib S F) (s : S) : Lib F where
  lookat := fun ex ey ez tx ty tz ux uy uz => (L.lookat s 0 ex ey ez tx ty tz ux uy uz).2
  qmake := fun x y z a => (L.qmake s 0 x y z a).2
  slerp := fun q r t => (L.slerp s 0 q r t).2
  qrot := fun q => (L.qrot s 0 q).2
  spline := fun route transit points t => (L.spline s 0 route transit points t).2
  translate := fun x y z => (L.translate s 0 x y z).2
  multiply := fun a b => (L.multiply s 0 a b).2
  perspective := fun fovy aspect near far => (L.perspective s 0 fovy aspect near far).2

/-- Modelled from the spec: the library of the specification in the calling
convention of the C headers.  It keeps no state; every function overwrites
its result array, except that `spline`, which has no error result, leaves
the array as it was when `evaluate` rejects the path. -/
def specCLib (M : CMath F) (P : SlerpPolicy F) : CLib Unit F where
  lookat := fun s _ ex ey ez tx ty tz ux uy uz => (s, lookat M ex ey ez tx ty tz ux uy uz)
  qmake := fun s _ x y z a => (s, qmake M x y z a)
  slerp := fun s _ q r t => (s, slerp M P q r t)
  qrot := fun s _ q => (s, qrot q)
  spline := fun s p route transit points t =>
    (s, (evaluate (route.take points) (transit.take points) t).getD p)
  translate := fun s _ x y z => (s, translate x y z)
  multiply := fun s _ a b => (s, multiply a b)
  perspective := fun s _ fovy aspect near far => (s, perspective M fovy aspect near far)

/-! ## Rounding: basic facts -/

theorem floor_le_roundHalfEven (y : ℚ) : ⌊y⌋ ≤ roundHalfEven y := by
  unfold roundHalfEven
  simp only
  split_ifs <;> omega

theorem roundHalfEven_le_floor_succ (y : ℚ) : roundHalfEven y ≤ ⌊y⌋ + 1 := by
  unfold roundHalfEven
  simp only
  split_ifs <;> omega

theorem roundHalfEven_intCast (m : ℤ) : roundHalfEven (m : ℚ) = m := by
  unfold roundHalfEven
  simp

theorem int_le_roundHalfEven {m : ℤ} {y : ℚ} (h : (m : ℚ) ≤ y) : m ≤ roundHalfEven y :=
  le_trans (Int.le_floor.mpr h) (floor_le_roundHalfEven y)

theorem roundHalfEven_le_int {m : ℤ} {y : ℚ} (h : y ≤ (m : ℚ)) : roundHalfEven y ≤ m := by
  rcases eq_or_lt_of_le h with h | h
  · rw [h, roundHalfEven_intCast]
  · have := Int.floor_lt.mpr h
    have := roundHalfEven_le_floor_succ y
    omega

theorem roundHalfEven_sub_abs_le (y : ℚ) : |(roundHalfEven y : ℚ) - y| ≤ 1 / 2 := by
  have h1 := Int.floor_le y
  have h2 := Int.lt_floor_add_one y
  unfold roundHalfEven
  simp only
  rw [abs_le]
  split_ifs with a b c
  · constructor <;> linarith
  · push_cast; constructor <;> linarith
  · constructor <;> linarith
  · push_cast; constructor <;> linarith

/-- Away from ties the rounding is the nearest integer. -/
theorem roundHalfEven_eq_of_abs_lt {n : ℤ} {y : ℚ} (h : |y - n| < 1 / 2) :
    roundHalfEven y = n := by
  have h1 := roundHalfEven_sub_abs_le y
  rw [abs_le] at h1
  rw [abs_lt] at h
  have a : ((roundHalfEven y - n : ℤ) : ℚ) < 1 := by push_cast; linarith
  have b : (-1 : ℚ) < ((roundHalfEven y - n : ℤ) : ℚ) := by push_cast; linarith
  have a1 : roundHalfEven y - n < 1 := by exact_mod_cast a
  have b1 : -1 < roundHalfEven y - n := by exact_mod_cast b
  omega

/-- A multiple of a power of two at least as coarse as the rounding grid of `x`
that lies above `x` also lies above the rounded `x`. -/
theorem fpRound_le_grid (p : ℕ) (emin : ℤ) {x : ℚ} (m i : ℤ) (hi : ulpExp p emin x ≤ i)
    (h : x ≤ m * 2 ^ i) : fpRound p emin x ≤ m * 2 ^ i := by
  unfold fpRound
  split_ifs with hx
  · rw [hx] at h; exact h
  · set j := ulpExp p emin x with hj
    have hpos : (0 : ℚ) < 2 ^ j := by positivity
    obtain ⟨d, hd⟩ := Int.eq_ofNat_of_zero_le (sub_nonneg.mpr hi)
    have hgrid : (m : ℚ) * 2 ^ i = ((m * 2 ^ d : ℤ) : ℚ) * 2 ^ j := by
      have : i = j + d := by omega
      rw [this, zpow_add₀ (by norm_num), zpow_natCast]; push_cast; ring
    rw [hgrid] at h ⊢
    have h3 : x / 2 ^ j ≤ ((m * 2 ^ d : ℤ) : ℚ) := by
      rw [div_le_iff₀ hpos]; exact h
    have h4 : (roundHalfEven (x / 2 ^ j) : ℚ) ≤ ((m * 2 ^ d : ℤ) : ℚ) := by
      exact_mod_cast roundHalfEven_le_int h3
    exact mul_le_mul_of_nonneg_right h4 hpos.le

/-- A multiple of a power of two at least as coarse as the rounding grid of `x`
that lies below `x` also lies below the rounded `x`. -/
theorem grid_le_fpRound (p : ℕ) (emin : ℤ) {x : ℚ} (m i : ℤ) (hi : ulpExp p emin x ≤ i)
    (h : (m : ℚ) * 2 ^ i ≤ x) : (m : ℚ) * 2 ^ i ≤ fpRound p emin x := by
  unfold fpRound
  split_ifs with hx
  · rw [hx] at h; exact h
  · set j := ulpExp p emin x with hj
    have hpos : (0 : ℚ) < 2 ^ j := by positivity
    obtain ⟨d, hd⟩ := Int.eq_ofNat_of_zero_le (sub_nonneg.mpr hi)
    have hgrid : (m : ℚ) * 2 ^ i = ((m * 2 ^ d : ℤ) : ℚ) * 2 ^ j := by
      have : i = j + d := by omega
      rw [this, zpow_add₀ (by norm_num), zpow_natCast]; push_cast; ring
    rw [hgrid] at h ⊢
    have h3 : ((m * 2 ^ d : ℤ) : ℚ) ≤ x / 2 ^ j := by
      rw [le_div_iff₀ hpos]; exact h
    have h4 : ((m * 2 ^ d : ℤ) : ℚ) ≤ (roundHalfEven (x / 2 ^ j) : ℚ) := by
      exact_mod_cast int_le_roundHalfEven h3
    exact mul_le_mul_of_nonneg_right h4 hpos.le

/-- Numbers on the rounding grid are not changed by rounding. -/
theorem fpRound_grid (p : ℕ) (emin : ℤ) {x : ℚ} (m i : ℤ) (hi : ulpExp p emin x ≤ i)
    (h : x = m * 2 ^ i) : fpRound p emin x = x :=
  le_antisymm (by simpa [← h] using fpRound_le_grid p emin m i hi h.le)
    (by simpa [← h] using grid_le_fpRound p emin m i hi h.ge)

/-- Rounding moves a number by at most half a unit in the last place. -/
theorem fpRound_sub_abs_le (p : ℕ) (emin : ℤ) (x : ℚ) :
    |fpRound p emin x - x| ≤ 2 ^ ulpExp p emin x / 2 := by
  unfold fpRound
  split_ifs with hx
  · simp [hx]; positivity
  · set j := ulpExp p emin x with hj
    have hpos : (0 : ℚ) < 2 ^ j := by positivity
    have h := roundHalfEven_sub_abs_le (x / 2 ^ j)
    have e : (roundHalfEven (x / 2 ^ j) : ℚ) * 2 ^ j - x
        = ((roundHalfEven (x / 2 ^ j) : ℚ) - x / 2 ^ j) * 2 ^ j := by
      field_simp
    rw [e, abs_mul, abs_of_pos hpos]
    calc _ ≤ 1 / 2 * (2:ℚ) ^ j := mul_le_mul_of_nonneg_right h hpos.le
      _ = _ := by ring

theorem log2_le_of_le_zpow {x : ℚ} {k : ℤ} (h0 : 0 < x) (h : x ≤ 2 ^ k) : Int.log 2 x ≤ k := by
  have h1 := Int.zpow_log_le_self (b := 2) (by norm_num) h0
  have h2 : ((2 : ℕ) : ℚ) ^ Int.log 2 x ≤ ((2 : ℕ) : ℚ) ^ k := le_trans h1 (by exact_mod_cast h)
  exact (zpow_le_zpow_iff_right₀ (by norm_num)).mp h2

theorem log2_lt_of_lt_zpow {x : ℚ} {k : ℤ} (h0 : 0 < x) (h : x < 2 ^ k) : Int.log 2 x < k :=
  (Int.lt_zpow_iff_log_lt (b := 2) (by norm_num) h0).mp (by exact_mod_cast h)

theorem le_log2_of_zpow_le {x : ℚ} {k : ℤ} (h0 : 0 < x) (h : 2 ^ k ≤ x) : k ≤ Int.log 2 x :=
  (Int.zpow_le_iff_le_log (b := 2) (by norm_num) h0).mp (by exact_mod_cast h)

theorem ulpExp_le_of_le_zpow (p : ℕ) (emin : ℤ) {x : ℚ} {k : ℤ} (h0 : 0 ≤ x) (h : x ≤ 2 ^ k)
    (hk : 0 ≤ k) : ulpExp p emin x ≤ max k emin - ((p : ℤ) - 1) := by
  unfold ulpExp
  rw [abs_of_nonneg h0]
  have : Int.log 2 x ≤ k := by
    rcases eq_or_lt_of_le h0 with h0 | h0
    · rw [← h0]; simpa using hk
    · exact log2_le_of_le_zpow h0 h
  have := max_le_max this (le_refl emin)
  omega

theorem ulpExp_eq (p : ℕ) (emin : ℤ) {x : ℚ} (k : ℤ) (h1 : 2 ^ k ≤ x) (h2 : x < 2 ^ (k + 1))
    (hk : emin ≤ k) : ulpExp p emin x = k - ((p : ℤ) - 1) := by
  have h0 : 0 < x := lt_of_lt_of_le (by positivity) h1
  unfold ulpExp
  rw [abs_of_pos h0]
  have a := le_log2_of_zpow_le h0 h1
  have b := log2_lt_of_lt_zpow h0 h2
  have : Int.log 2 x = k := by omega
  rw [this, max_eq_left hk]

/-- Evaluation of a rounding: `x` in the binade `[2^k, 2^(k+1))` and closer to
`n` units in the last place than to any other multiple. -/
theorem fpRound_eval (p : ℕ) (emin : ℤ) {x : ℚ} (k n : ℤ) (h1 : 2 ^ k ≤ x)
    (h2 : x < 2 ^ (k + 1)) (hk : emin ≤ k)
    (hn : |x / 2 ^ (k - ((p : ℤ) - 1)) - n| < 1 / 2) :
    fpRound p emin x = n * 2 ^ (k - ((p : ℤ) - 1)) := by
  have h0 : 0 < x := lt_of_lt_of_le (by positivity) h1
  unfold fpRound
  rw [if_neg h0.ne', ulpExp_eq p emin k h1 h2 hk, roundHalfEven_eq_of_abs_lt hn]

/-- Rounding keeps a lower bound that is a power of two not below the
smallest subnormal. -/
theorem zpow_le_fpRound (p : ℕ) (emin : ℤ) (hp : 1 ≤ p) {x : ℚ} (k : ℤ)
    (hk : emin - ((p : ℤ) - 1) ≤ k) (h : 2 ^ k ≤ x) : 2 ^ k ≤ fpRound p emin x := by
  have h0 : 0 < x := lt_of_lt_of_le (by positivity) h
  have hlog := le_log2_of_zpow_le h0 h
  have hp1 : (1 : ℤ) ≤ p := by exact_mod_cast hp
  rcases le_or_lt emin (Int.log 2 x) with hc | hc
  · have hu : ulpExp p emin x ≤ Int.log 2 x := by
      unfold ulpExp; rw [abs_of_pos h0, max_eq_left hc]; omega
    have h3 : ((1 : ℤ) : ℚ) * 2 ^ Int.log 2 x ≤ x := by
      simpa using Int.zpow_log_le_self (b := 2) (r := x) (by norm_num) h0
    have h4 := grid_le_fpRound p emin 1 _ hu h3
    have h5 : (2 : ℚ) ^ k ≤ 2 ^ Int.log 2 x := zpow_le_zpow_right₀ (by norm_num) hlog
    simpa using le_trans h5 (by simpa using h4)
  · have hu : ulpExp p emin x ≤ k := by
      unfold ulpExp; rw [abs_of_pos h0, max_eq_right hc.le]; omega
    simpa using grid_le_fpRound p emin 1 k hu (by simpa using h)

/-- Below half the smallest subnormal everything rounds to zero. -/
theorem fpRound_eq_zero (p : ℕ) (emin : ℤ) {x : ℚ} (h0 : 0 ≤ x)
    (h : x < 2 ^ (emin - (p : ℤ))) : fpRound p emin x = 0 := by
  rcases eq_or_lt_of_le h0 with h0 | h0
  · simp [fpRound, ← h0]
  · have hlog := log2_lt_of_lt_zpow h0 h
    have hu : ulpExp p emin x = emin - (p : ℤ) + 1 := by
      unfold ulpExp; rw [abs_of_pos h0, max_eq_right (by omega)]; ring
    unfold fpRound
    rw [if_neg h0.ne', hu]
    have hpos : (0 : ℚ) < 2 ^ (emin - (p : ℤ) + 1) := by positivity
    have : roundHalfEven (x / 2 ^ (emin - (p : ℤ) + 1)) = 0 := by
      apply roundHalfEven_eq_of_abs_lt
      rw [Int.cast_zero, sub_zero, abs_of_nonneg (by positivity), div_lt_iff₀ hpos,
        zpow_add₀ (by norm_num)]
      linarith
    rw [this]; simp

/-! ## Rounding on the unit interval and the remainder -/

theorem ulpExp_le_of_lt_zpow (p : ℕ) (emin : ℤ) {x : ℚ} {k : ℤ} (h0 : 0 < x) (h : x < 2 ^ k) :
    ulpExp p emin x ≤ max (k - 1) emin - ((p : ℤ) - 1) := by
  unfold ulpExp
  rw [abs_of_pos h0]
  have : Int.log 2 x ≤ k - 1 := by have := log2_lt_of_lt_zpow h0 h; omega
  have := max_le_max this (le_refl emin)
  omega

/-- Rounding maps the unit interval into itself. -/
theorem fpRound_unit (p : ℕ) (emin : ℤ) (hp : 1 ≤ p) (hemin : emin ≤ 0) {x : ℚ}
    (h0 : 0 ≤ x) (h1 : x ≤ 1) : 0 ≤ fpRound p emin x ∧ fpRound p emin x ≤ 1 := by
  have hp1 : (1 : ℤ) ≤ p := by exact_mod_cast hp
  have hu : ulpExp p emin x ≤ 0 := by
    have := ulpExp_le_of_le_zpow p emin (k := 0) h0 (by simpa using h1) le_rfl
    rw [max_eq_left hemin] at this
    omega
  constructor
  · simpa using grid_le_fpRound p emin 0 0 hu (by simpa using h0)
  · simpa using fpRound_le_grid p emin 1 0 hu (by simpa using h1)

/-- On the unit interval rounding to `p` bits moves a number by at most `2 ^ (-p - 1)`. -/
theorem fpRound_unit_err (p : ℕ) (emin : ℤ) (hp : 1 ≤ p) (hemin : emin ≤ -1) {x : ℚ}
    (h0 : 0 ≤ x) (h1 : x ≤ 1) : |fpRound p emin x - x| ≤ 2 ^ (-(p : ℤ) - 1) := by
  have hp1 : (1 : ℤ) ≤ p := by exact_mod_cast hp
  rcases eq_or_lt_of_le h0 with h0 | h0
  · rw [← h0]; simp [fpRound]; positivity
  rcases eq_or_lt_of_le h1 with h1 | h1
  · have hu : ulpExp p emin x ≤ 0 := by
      have := ulpExp_le_of_le_zpow p emin (k := 0) h0.le (by simp [h1]) le_rfl
      rw [max_eq_left (by omega)] at this
      omega
    rw [fpRound_grid p emin 1 0 hu (by simp [h1])]
    simp; positivity
  · have hu : ulpExp p emin x ≤ -(p : ℤ) := by
      have := ulpExp_le_of_lt_zpow p emin (k := 0) h0 (by simpa using h1)
      rw [max_eq_left (by omega)] at this
      omega
    refine le_trans (fpRound_sub_abs_le p emin x) ?_
    have h2 : (2 : ℚ) ^ ulpExp p emin x ≤ 2 ^ (-(p : ℤ)) := zpow_le_zpow_right₀ (by norm_num) hu
    have h3 : (2 : ℚ) ^ (-(p : ℤ) - 1) = 2 ^ (-(p : ℤ)) / 2 := by
      rw [zpow_sub₀ (by norm_num), zpow_one]
    rw [h3]
    linarith

theorem fmod_cycle_eq {e : ℚ} (he : 0 ≤ e) : fmod e cycle = e - 5 * ⌊e / 5⌋ := by
  unfold fmod truncToInt cycle
  rw [if_pos (by positivity)]; ring

theorem fmod_cycle_nonneg {e : ℚ} (he : 0 ≤ e) : 0 ≤ fmod e cycle := by
  rw [fmod_cycle_eq he]
  have := Int.floor_le (e / 5)
  linarith

theorem fmod_cycle_lt {e : ℚ} (he : 0 ≤ e) : fmod e cycle < 5 := by
  rw [fmod_cycle_eq he]
  have := Int.lt_floor_add_one (e / 5)
  linarith

/-- The exact quotient `(e mod cycle) / cycle` lies in `[0, 1)`. -/
theorem quotient_unit {e : ℚ} (he : 0 ≤ e) :
    0 ≤ fmod e cycle / cycle ∧ fmod e cycle / cycle < 1 := by
  have a := fmod_cycle_nonneg he
  have b := fmod_cycle_lt he
  unfold cycle at *
  constructor
  · positivity
  · rw [div_lt_one (by norm_num)]; exact b

theorem toDouble_unit {x : ℚ} (h0 : 0 ≤ x) (h1 : x ≤ 1) : 0 ≤ toDouble x ∧ toDouble x ≤ 1 :=
  fpRound_unit 53 (-1022) (by norm_num) (by norm_num) h0 h1

theorem toFloat_unit {x : ℚ} (h0 : 0 ≤ x) (h1 : x ≤ 1) : 0 ≤ toFloat x ∧ toFloat x ≤ 1 :=
  fpRound_unit 24 (-126) (by norm_num) (by norm_num) h0 h1

/-- Rounding to `float` never crosses the largest `float` below one. -/
theorem toFloat_le_pred_one {x : ℚ} (h0 : 0 ≤ x) (h : x ≤ 1 - 2 ^ (-24 : ℤ)) :
    toFloat x ≤ 1 - 2 ^ (-24 : ℤ) := by
  rcases eq_or_lt_of_le h0 with h0 | h0
  · rw [← h0]; simp [toFloat, fpRound]; norm_num
  have hx1 : x < 2 ^ (0 : ℤ) := by
    have : (0 : ℚ) < 2 ^ (-24 : ℤ) := by positivity
    simp only [zpow_zero]; linarith
  have hu : ulpExp 24 (-126) x ≤ -24 := by
    have := ulpExp_le_of_lt_zpow 24 (-126) h0 hx1
    simpa using this
  have hc : (((2 ^ 24 - 1 : ℤ)) : ℚ) * 2 ^ (-24 : ℤ) = 1 - 2 ^ (-24 : ℤ) := by norm_num
  have := fpRound_le_grid 24 (-126) (2 ^ 24 - 1) (-24) hu (by rw [hc]; exact h)
  rw [hc] at this
  exact this

theorem toDouble_le_pred_one {x : ℚ} (h0 : 0 ≤ x) (h : x ≤ 1 - 2 ^ (-24 : ℤ)) :
    toDouble x ≤ 1 - 2 ^ (-24 : ℤ) := by
  have hx1 : x ≤ 2 ^ (0 : ℤ) := by
    have : (0 : ℚ) < 2 ^ (-24 : ℤ) := by positivity
    simp only [zpow_zero]; linarith
  have hu : ulpExp 53 (-1022) x ≤ -24 := by
    have := ulpExp_le_of_le_zpow 53 (-1022) h0 hx1 le_rfl
    have e : max (0 : ℤ) (-1022) = 0 := by decide
    rw [e] at this
    omega
  have hc : (((2 ^ 24 - 1 : ℤ)) : ℚ) * 2 ^ (-24 : ℤ) = 1 - 2 ^ (-24 : ℤ) := by norm_num
  have := fpRound_le_grid 53 (-1022) (2 ^ 24 - 1) (-24) hu (by rw [hc]; exact h)
  rw [hc] at this
  exact this

/-! ## The parameter `t`: range -/

theorem toDouble_pos_of_ge {x : ℚ} (h : 2 ^ (-149 : ℤ) ≤ x) : 2 ^ (-149 : ℤ) ≤ toDouble x :=
  zpow_le_fpRound 53 (-1022) (by norm_num) (-149) (by norm_num) h

theorem toFloat_pos_of_ge {x : ℚ} (h : 2 ^ (-149 : ℤ) ≤ x) : 2 ^ (-149 : ℤ) ≤ toFloat x :=
  zpow_le_fpRound 24 (-126) (by norm_num) (-149) (by norm_num) h

theorem frameT_zero_of_fmod_zero {e : ℚ} (h : fmod e cycle = 0) : frameT e = 0 := by
  simp [frameT, h, toDouble, toFloat, fpRound]

theorem fmod_add_cycle {e : ℚ} (he : 0 ≤ e) (k : ℕ) : fmod (e + k * cycle) cycle = fmod e cycle := by
  have hk : 0 ≤ e + k * cycle := by unfold cycle; positivity
  rw [fmod_cycle_eq hk, fmod_cycle_eq he]
  have : (e + k * cycle) / 5 = e / 5 + (k : ℤ) := by unfold cycle; push_cast; ring
  rw [this, Int.floor_add_int]
  unfold cycle; push_cast; ring

/-- C2 (amended): for every clock value `e ≥ 0` the parameter `t` of `app()`
satisfies `0 ≤ t ≤ 1`, and `t < 1` as long as the exact quotient
`(e mod cycle) / cycle` does not exceed the largest `float` below one. -/
theorem frameT_range (e : ℚ) (he : 0 ≤ e) :
    0 ≤ frameT e ∧ frameT e ≤ 1 ∧
      (fmod e cycle / cycle ≤ 1 - 2 ^ (-24 : ℤ) → frameT e < 1) := by
  obtain ⟨q0, q1⟩ := quotient_unit he
  obtain ⟨d0, d1⟩ := toDouble_unit q0 q1.le
  obtain ⟨t0, t1⟩ := toFloat_unit d0 d1
  refine ⟨t0, t1, fun h => ?_⟩
  have := toFloat_le_pred_one d0 (toDouble_le_pred_one q0 h)
  have hpos : (0 : ℚ) < 2 ^ (-24 : ℤ) := by positivity
  unfold frameT
  linarith

theorem frameT_range_witness :
    (0 : ℚ) ≤ 15 / 2 ∧ 0 ≤ frameT (15 / 2) ∧ frameT (15 / 2) ≤ 1 ∧
      (fmod (15 / 2) cycle / cycle ≤ 1 - 2 ^ (-24 : ℤ) → frameT (15 / 2) < 1) :=
  ⟨by norm_num, frameT_range (15 / 2) (by norm_num)⟩

theorem fmod_small {e : ℚ} (h0 : 0 ≤ e) (h5 : e < 5) : fmod e cycle = e := by
  rw [fmod_cycle_eq h0]
  have : ⌊e / 5⌋ = 0 := by
    rw [Int.floor_eq_iff]
    constructor
    · simp; positivity
    · simp; rw [div_lt_one (by norm_num)]; exact h5
  rw [this]; simp

/-- C2 (counterexample): the clock value `5 - 2^-23` is a `double`, and for it
`app()` computes `t = 1`, so `t < 1` fails. -/
theorem frameT_reaches_one :
    (0 : ℚ) ≤ 41943039 / 8388608 ∧ toDouble (41943039 / 8388608) = 41943039 / 8388608 ∧
      frameT (41943039 / 8388608) = 1 ∧ ¬ frameT (41943039 / 8388608) < 1 := by
  have hd : toDouble (41943039 / 8388608) = 41943039 / 8388608 := by
    have hu : ulpExp 53 (-1022) (41943039 / 8388608) ≤ -23 := by
      have := ulpExp_le_of_le_zpow 53 (-1022) (x := 41943039 / 8388608) (k := 3)
        (by norm_num) (by norm_num) (by norm_num)
      have e : max (3 : ℤ) (-1022) = 3 := by decide
      rw [e] at this
      omega
    exact fpRound_grid 53 (-1022) 41943039 (-23) hu (by norm_num)
  have ht : frameT (41943039 / 8388608) = 1 := by
    unfold frameT
    rw [fmod_small (by norm_num) (by norm_num)]
    have h1 : toDouble (41943039 / 8388608 / cycle) = 9007199039992627 * 2 ^ (-53 : ℤ) := by
      have := fpRound_eval 53 (-1022) (x := 41943039 / 8388608 / cycle) (-1) 9007199039992627
        (by unfold cycle; norm_num) (by unfold cycle; norm_num) (by norm_num)
        (by unfold cycle; norm_num [abs_lt])
      simpa using this
    rw [h1]
    have := fpRound_eval 24 (-126) (x := 9007199039992627 * 2 ^ (-53 : ℤ)) (-1) 16777216
      (by norm_num) (by norm_num) (by norm_num) (by norm_num [abs_lt])
    unfold toFloat
    rw [this]
    norm_num
  exact ⟨by norm_num, hd, ht, by rw [ht]; norm_num⟩

/-! ## The parameter `t`: value and period -/

/-- Every `float` is a `double`. -/
theorem toDouble_of_toFloat {q : ℚ} (h : toFloat q = q) : toDouble q = q := by
  by_cases hq : q = 0
  · simp [hq, toDouble, fpRound]
  · unfold toFloat fpRound at h
    rw [if_neg hq] at h
    refine fpRound_grid 53 (-1022) (roundHalfEven (q / 2 ^ ulpExp 24 (-126) q))
      (ulpExp 24 (-126) q) ?_ h.symm
    unfold ulpExp
    have := max_le_max (le_refl (Int.log 2 |q|)) (show (-1022 : ℤ) ≤ -126 by norm_num)
    push_cast
    omega

theorem frameT_sub_abs_le {e : ℚ} (he : 0 ≤ e) :
    |frameT e - fmod e cycle / cycle| ≤ 2 ^ (-24 : ℤ) := by
  obtain ⟨q0, q1⟩ := quotient_unit he
  obtain ⟨d0, d1⟩ := toDouble_unit q0 q1.le
  have a := fpRound_unit_err 53 (-1022) (by norm_num) (by norm_num) q0 q1.le
  have b := fpRound_unit_err 24 (-126) (by norm_num) (by norm_num) d0 d1
  have c : frameT e - fmod e cycle / cycle
      = (fpRound 24 (-126) (toDouble (fmod e cycle / cycle)) - toDouble (fmod e cycle / cycle))
        + (fpRound 53 (-1022) (fmod e cycle / cycle) - fmod e cycle / cycle) := by
    unfold frameT toFloat toDouble; ring
  rw [c]
  refine le_trans (abs_add _ _) ?_
  have n1 : (2 : ℚ) ^ (-((24 : ℕ) : ℤ) - 1) + 2 ^ (-((53 : ℕ) : ℤ) - 1) ≤ 2 ^ (-24 : ℤ) := by
    norm_num
  linarith

/-- C3 (amended): for every clock value `e ≥ 0` the parameter `t` of `app()` is
`(e - 5 * floor(e / 5)) / 5` rounded to `double` and then to `float`; it is
within `2^-24` of that quotient, equal to it whenever the quotient is a
`float`, and the same for every library and window aspect, a function of `e`
alone; elapsed 7.5 s gives `t = 0.5`. -/
theorem frameT_formula (e : ℚ) (he : 0 ≤ e) :
    frameT e = toFloat (toDouble ((e - 5 * ⌊e / 5⌋) / 5)) ∧
      |frameT e - (e - 5 * ⌊e / 5⌋) / 5| ≤ 2 ^ (-24 : ℤ) ∧
      (toFloat ((e - 5 * ⌊e / 5⌋) / 5) = (e - 5 * ⌊e / 5⌋) / 5 →
        frameT e = (e - 5 * ⌊e / 5⌋) / 5) ∧
      (∀ (L : Lib F) (aspect : F), (frame L e aspect).t = frameT e) ∧
      frameT (15 / 2) = 1 / 2 := by
  have hq : fmod e cycle / cycle = (e - 5 * ⌊e / 5⌋) / 5 := by
    rw [fmod_cycle_eq he]; rfl
  refine ⟨by unfold frameT; rw [hq], ?_, ?_, fun _ _ => rfl, ?_⟩
  · rw [← hq]; exact frameT_sub_abs_le he
  · intro h
    unfold frameT
    rw [hq, toDouble_of_toFloat h, h]
  · have h1 : fmod (15 / 2) cycle / cycle = 1 / 2 := by
      rw [fmod_cycle_eq (by norm_num)]
      have : ⌊(15 / 2 : ℚ) / 5⌋ = 1 := by
        rw [Int.floor_eq_iff]; norm_num
      rw [this]; unfold cycle; norm_num
    have h2 : toFloat (1 / 2) = 1 / 2 := by
      have hu : ulpExp 24 (-126) (1 / 2) ≤ -1 := by
        rw [ulpExp_eq 24 (-126) (-1) (by norm_num) (by norm_num) (by norm_num)]; norm_num
      exact fpRound_grid 24 (-126) 1 (-1) hu (by norm_num)
    unfold frameT
    rw [h1, toDouble_of_toFloat h2, h2]

theorem frameT_formula_witness :
    (0 : ℚ) ≤ 15 / 2 ∧
      frameT (15 / 2) = toFloat (toDouble ((15 / 2 - 5 * ⌊(15 / 2 : ℚ) / 5⌋) / 5)) ∧
      |frameT (15 / 2) - (15 / 2 - 5 * ⌊(15 / 2 : ℚ) / 5⌋) / 5| ≤ 2 ^ (-24 : ℤ) ∧
      (toFloat ((15 / 2 - 5 * ⌊(15 / 2 : ℚ) / 5⌋) / 5) = (15 / 2 - 5 * ⌊(15 / 2 : ℚ) / 5⌋) / 5 →
        frameT (15 / 2) = (15 / 2 - 5 * ⌊(15 / 2 : ℚ) / 5⌋) / 5) ∧
      (∀ (L : Lib ℚ) (aspect : ℚ), (frame L (15 / 2) aspect).t = frameT (15 / 2)) ∧
      frameT (15 / 2) = 1 / 2 :=
  ⟨by norm_num, frameT_formula (15 / 2) (by norm_num)⟩

/-- C3 (counterexample): for the clock value 1 (a `double`) `app()` computes
`t = 13421773 / 2^26`, the `float` nearest to one fifth, which is not
`(1 - 5 * floor(1 / 5)) / 5 = 1 / 5`. -/
theorem frameT_one_ne_fifth :
    toDouble 1 = 1 ∧ frameT 1 = 13421773 / 67108864 ∧
      frameT 1 ≠ (1 - 5 * ⌊(1 : ℚ) / 5⌋) / 5 := by
  have hd : toDouble 1 = 1 := by
    have hu : ulpExp 53 (-1022) 1 ≤ 0 := by
      rw [ulpExp_eq 53 (-1022) 0 (by norm_num) (by norm_num) (by norm_num)]; norm_num
    exact fpRound_grid 53 (-1022) 1 0 hu (by norm_num)
  have ht : frameT 1 = 13421773 / 67108864 := by
    unfold frameT
    rw [fmod_small (by norm_num) (by norm_num)]
    have h1 : toDouble (1 / cycle) = 7205759403792794 * 2 ^ (-55 : ℤ) := by
      have := fpRound_eval 53 (-1022) (x := 1 / cycle) (-3) 7205759403792794
        (by unfold cycle; norm_num) (by unfold cycle; norm_num) (by norm_num)
        (by unfold cycle; norm_num [abs_lt])
      simpa using this
    rw [h1]
    have := fpRound_eval 24 (-126) (x := 7205759403792794 * 2 ^ (-55 : ℤ)) (-3) 13421773
      (by norm_num) (by norm_num) (by norm_num) (by norm_num [abs_lt])
    unfold toFloat
    rw [this]
    norm_num
  refine ⟨hd, ht, ?_⟩
  rw [ht]
  have : ⌊(1 : ℚ) / 5⌋ = 0 := by rw [Int.floor_eq_iff]; norm_num
  rw [this]
  norm_num

/-- C6 (amended): `t` wraps with the period: the clock values `e` and
`e + k * cycle` give the same `t`; `t = 0` whenever `e` is a whole multiple of
`cycle`; and `t = 0` only if `e mod cycle` is below `cycle * 2^-149`, where
the narrowing to `float` underflows. -/
theorem frameT_wrap (e : ℚ) (he : 0 ≤ e) (k : ℕ) :
    frameT (e + k * cycle) = frameT e ∧
      ((∃ m : ℕ, e = m * cycle) → frameT e = 0) ∧
      (frameT e = 0 → fmod e cycle < cycle * 2 ^ (-149 : ℤ)) := by
  refine ⟨by unfold frameT; rw [fmod_add_cycle he k], ?_, ?_⟩
  · rintro ⟨m, rfl⟩
    apply frameT_zero_of_fmod_zero
    have := fmod_add_cycle (e := 0) le_rfl m
    rw [zero_add] at this
    rw [this]
    simp [fmod, truncToInt]
  · intro h
    by_contra hc
    push_neg at hc
    have hq : (2 : ℚ) ^ (-149 : ℤ) ≤ fmod e cycle / cycle := by
      unfold cycle at hc ⊢
      rw [le_div_iff₀ (by norm_num)]
      linarith
    have := toFloat_pos_of_ge (toDouble_pos_of_ge hq)
    have hpos : (0 : ℚ) < 2 ^ (-149 : ℤ) := by positivity
    unfold frameT at h
    linarith

theorem frameT_wrap_witness :
    (0 : ℚ) ≤ 15 / 2 ∧ frameT (15 / 2 + (2 : ℕ) * cycle) = frameT (15 / 2) ∧
      ((∃ m : ℕ, (15 / 2 : ℚ) = m * cycle) → frameT (15 / 2) = 0) ∧
      (frameT (15 / 2) = 0 → fmod (15 / 2) cycle < cycle * 2 ^ (-149 : ℤ)) :=
  ⟨by norm_num, frameT_wrap (15 / 2) (by norm_num) 2⟩

/-- C6 (counterexample): the clock value `2^-160` is a `double` and not a
multiple of `cycle`, yet `app()` computes `t = 0` for it. -/
theorem frameT_underflow :
    (0 : ℚ) ≤ 2 ^ (-160 : ℤ) ∧ toDouble (2 ^ (-160 : ℤ)) = 2 ^ (-160 : ℤ) ∧
      frameT (2 ^ (-160 : ℤ)) = 0 ∧ ¬ ∃ m : ℤ, (2 : ℚ) ^ (-160 : ℤ) = m * cycle := by
  have hpos : (0 : ℚ) < 2 ^ (-160 : ℤ) := by positivity
  have hlt : (2 : ℚ) ^ (-160 : ℤ) < 1 := zpow_lt_one_of_neg₀ (by norm_num) (by norm_num)
  refine ⟨hpos.le, ?_, ?_, ?_⟩
  · have hu : ulpExp 53 (-1022) (2 ^ (-160 : ℤ)) ≤ -160 := by
      rw [ulpExp_eq 53 (-1022) (-160) le_rfl
        (zpow_lt_zpow_right₀ (by norm_num) (by norm_num)) (by norm_num)]
      norm_num
    exact fpRound_grid 53 (-1022) 1 (-160) hu (by simp)
  · unfold frameT
    rw [fmod_small hpos.le (by linarith)]
    have hx0 : (0 : ℚ) < 2 ^ (-160 : ℤ) / cycle := by unfold cycle; positivity
    have hx1 : (2 : ℚ) ^ (-160 : ℤ) / cycle < 2 ^ (-160 : ℤ) := by
      unfold cycle; rw [div_lt_iff₀ (by norm_num)]; linarith
    have hu : ulpExp 53 (-1022) (2 ^ (-160 : ℤ) / cycle) ≤ -160 := by
      have := ulpExp_le_of_lt_zpow 53 (-1022) hx0 hx1
      have e : max ((-160 : ℤ) - 1) (-1022) = -161 := by decide
      rw [e] at this
      push_cast at this
      omega
    have d1 : toDouble (2 ^ (-160 : ℤ) / cycle) ≤ 2 ^ (-160 : ℤ) := by
      simpa using fpRound_le_grid 53 (-1022) 1 (-160) hu (by simpa using hx1.le)
    have d0 : 0 ≤ toDouble (2 ^ (-160 : ℤ) / cycle) := by
      simpa using grid_le_fpRound 53 (-1022) 0 (-160) hu (by simpa using hx0.le)
    refine fpRound_eq_zero 24 (-126) d0 (lt_of_le_of_lt d1 ?_)
    exact zpow_lt_zpow_right₀ (by norm_num) (by norm_num)
  · rintro ⟨m, hm⟩
    unfold cycle at hm
    rcases le_or_lt m 0 with h | h
    · have : (m : ℚ) ≤ 0 := by exact_mod_cast h
      linarith
    · have : (1 : ℚ) ≤ m := by exact_mod_cast h
      linarith

/-! ## The knots and the matrix product -/

theorem toFloat_three_tenths : toFloat (3 / 10) = 5033165 / 16777216 := by
  have := fpRound_eval 24 (-126) (x := 3 / 10) (-2) 10066330
    (by norm_num) (by norm_num) (by norm_num) (by norm_num [abs_lt])
  unfold toFloat
  rw [this]
  norm_num

theorem toFloat_seven_tenths : toFloat (7 / 10) = 11744051 / 16777216 := by
  have := fpRound_eval 24 (-126) (x := 7 / 10) (-1) 11744051
    (by norm_num) (by norm_num) (by norm_num) (by norm_num [abs_lt])
  unfold toFloat
  rw [this]
  norm_num

/-- The knots of `app()` as fractions. -/
theorem transit_eq :
    transit F = [0, 5033165 / 16777216, 1 / 2, 11744051 / 16777216, 1] := by
  unfold transit
  rw [toFloat_three_tenths, toFloat_seven_tenths]
  push_cast
  rfl

theorem points_eq : points F = 5 := rfl

theorem ix_row (r c : Fin 4) (h : (ix r c).val % 4 < 4) :
    (⟨(ix r c).val % 4, h⟩ : Fin 4) = r := by
  apply Fin.ext
  simp only [ix]
  omega

theorem ix_col (r c : Fin 4) (h : (ix r c).val / 4 < 4) :
    (⟨(ix r c).val / 4, h⟩ : Fin 4) = c := by
  apply Fin.ext
  simp only [ix]
  omega

theorem ix_surj (n : Fin 16) :
    ix ⟨n.val % 4, Nat.mod_lt _ (by norm_num)⟩ ⟨n.val / 4, by omega⟩ = n := by
  apply Fin.ext
  simp only [ix]
  omega

/-- Two arrays with the same entry in every row and column are equal. -/
theorem mat_ext {G : Type} {a b : Mat G} (h : ∀ r c, a (ix r c) = b (ix r c)) : a = b := by
  funext n
  rw [← ix_surj n]
  exact h _ _

/-- Entry (r, c) of the product is row `r` of `a` times column `c` of `b`. -/
theorem multiply_apply (a b : Mat F) (r c : Fin 4) :
    multiply a b (ix r c) = ∑ k : Fin 4, a (ix r k) * b (ix k c) := by
  simp only [multiply, ix_row, ix_col]

/-- Associativity of the modelled matrix product. -/
theorem matmul_assoc (a b c : Mat F) :
    multiply (multiply a b) c = multiply a (multiply b c) := by
  apply mat_ext
  intro r s
  simp only [multiply_apply, Finset.sum_mul, Finset.mul_sum]
  rw [Finset.sum_comm]
  simp only [mul_assoc]

/-- The product acts as the composition, right factor first. -/
theorem transform_multiply (a b : Mat F) (v : Fin 4 → F) :
    transform (multiply a b) v = transform a (transform b v) := by
  funext r
  simp only [transform, multiply_apply, Finset.sum_mul, Finset.mul_sum]
  rw [Finset.sum_comm]
  simp only [mul_assoc]

/-! ## Composition order, path invariant, associativity, configuration -/

/-- C1: the clip matrix that a frame of `app()` stores in the uniform `mc` is
`multiply(mp, multiply(mv, multiply(mt, mr)))` for the frame's projection,
view, translation and rotation matrices, and the stored scalar is the frame's
`t`; with the matrix product for `multiply`, the clip matrix acts on a point
by rotating first, then translating, then viewing, then projecting. -/
theorem frame_clip_matrix (L : Lib F) (e : ℚ) (aspect : F) :
    (frame L e aspect).mc =
        L.multiply (frameMp L aspect)
          (L.multiply (frameMv L)
            (L.multiply (frameMt L (frameT e)) (frameMr L (frameT e)))) ∧
      (frame L e aspect).t = frameT e ∧
      ∀ v : Fin 4 → F,
        transform (frame { L with multiply := multiply } e aspect).mc v =
          transform (frameMp L aspect)
            (transform (frameMv L)
              (transform (frameMt L (frameT e)) (transform (frameMr L (frameT e)) v))) := by
  refine ⟨rfl, rfl, fun v => ?_⟩
  show transform (multiply (frameMp L aspect) (multiply (frameMv L)
    (multiply (frameMt L (frameT e)) (frameMr L (frameT e))))) v = _
  rw [transform_multiply, transform_multiply, transform_multiply]

theorem ulpExp_abs (p : ℕ) (emin : ℤ) (x : ℚ) : ulpExp p emin |x| = ulpExp p emin x := by
  simp [ulpExp]

/-- A multiple `m * 2 ^ i` of magnitude at most `2 ^ k` is a `float` as soon as
`2 ^ i` is not finer than the spacing of the floats below `2 ^ k`. -/
theorem toFloat_grid (m i k : ℤ) (hk : 0 ≤ k) (hb : |(m : ℚ) * 2 ^ i| ≤ 2 ^ k)
    (hi : max k (-126) - 23 ≤ i) : toFloat (m * 2 ^ i) = m * 2 ^ i := by
  have h := ulpExp_le_of_le_zpow 24 (-126) (abs_nonneg _) hb hk
  rw [ulpExp_abs] at h
  exact fpRound_grid 24 (-126) m i (le_trans h (by push_cast; omega)) rfl

/-- The literals of `route`, of `transit` (other than `0.3f` and `0.7f`) and
of the calls in `app()` are binary32 numbers, and `cycle` is a `double`. -/
theorem literals_exact :
    (∀ x ∈ ([1, 2, 3, 4, 5, 15, 1 / 2] : List ℚ), toFloat x = x ∧ toFloat (-x) = -x) ∧
      toFloat 0 = 0 ∧ toDouble cycle = cycle := by
  have g : ∀ m : ℤ, |(m : ℚ)| ≤ 16 → toFloat m = m := by
    intro m hm
    have h16 : (2 : ℚ) ^ (4 : ℤ) = 16 := by norm_num
    have := toFloat_grid m 0 4 (by norm_num)
      (by rw [zpow_zero, mul_one, h16]; exact hm) (by norm_num)
    simpa using this
  have hh : |((1 : ℤ) : ℚ) * 2 ^ (-1 : ℤ)| ≤ 2 ^ (0 : ℤ) := by
    rw [abs_le]; constructor <;> norm_num
  have hn : |((-1 : ℤ) : ℚ) * 2 ^ (-1 : ℤ)| ≤ 2 ^ (0 : ℤ) := by
    rw [abs_le]; constructor <;> norm_num
  refine ⟨?_, by simp [toFloat, fpRound], ?_⟩
  · intro x hx
    simp only [List.mem_cons, List.mem_singleton, List.not_mem_nil, or_false] at hx
    rcases hx with rfl | rfl | rfl | rfl | rfl | rfl | rfl
    · exact ⟨by simpa using g 1 (by norm_num), by simpa using g (-1) (by norm_num)⟩
    · exact ⟨by simpa using g 2 (by norm_num), by simpa using g (-2) (by norm_num)⟩
    · exact ⟨by simpa using g 3 (by norm_num), by simpa using g (-3) (by norm_num)⟩
    · exact ⟨by simpa using g 4 (by norm_num), by simpa using g (-4) (by norm_num)⟩
    · exact ⟨by simpa using g 5 (by norm_num), by simpa using g (-5) (by norm_num)⟩
    · exact ⟨by simpa using g 15 (by norm_num), by simpa using g (-15) (by norm_num)⟩
    · have a := toFloat_grid 1 (-1) 0 le_rfl hh (by norm_num)
      have b := toFloat_grid (-1) (-1) 0 le_rfl hn (by norm_num)
      have ea : (((1 : ℤ) : ℚ)) * 2 ^ (-1 : ℤ) = 1 / 2 := by norm_num
      have eb : (((-1 : ℤ) : ℚ)) * 2 ^ (-1 : ℤ) = -(1 / 2) := by norm_num
      rw [ea] at a
      rw [eb] at b
      exact ⟨a, b⟩
  · have hu : ulpExp 53 (-1022) cycle ≤ 0 := by
      have := ulpExp_le_of_le_zpow 53 (-1022) (x := cycle) (k := 3)
        (by unfold cycle; norm_num) (by unfold cycle; norm_num) (by norm_num)
      have e : max (3 : ℤ) (-1022) = 3 := by decide
      rw [e] at this
      omega
    exact fpRound_grid 53 (-1022) 5 0 hu (by unfold cycle; norm_num)

/-- C4: the path of `app()` satisfies the path invariant: the knots `transit`
are strictly increasing, lie in `[0, 1]`, start at 0 and end at 1; `points`
is 5, at least 4; `route` and `transit` have the same length, so every index
below `points` is valid in both. -/
theorem path_invariant :
    (transit F).Sorted (· < ·) ∧
      (∀ k ∈ transit F, 0 ≤ k ∧ k ≤ 1) ∧
      (transit F).head? = some 0 ∧
      (transit F).getLast? = some 1 ∧
      points F = 5 ∧ 4 ≤ points F ∧
      (route F).length = (transit F).length ∧
      ∀ i, i < points F → i < (route F).length ∧ i < (transit F).length := by
  refine ⟨?_, ?_, ?_, ?_, rfl, by rw [points_eq]; norm_num, rfl, fun i hi => ⟨hi, hi⟩⟩
  · rw [transit_eq]
    simp only [List.Sorted, List.pairwise_cons, List.mem_cons, List.mem_singleton,
      forall_eq_or_imp, forall_eq, List.not_mem_nil, false_implies, implies_true,
      List.Pairwise.nil, and_true]
    norm_num
  · rw [transit_eq]
    simp only [List.mem_cons, List.mem_singleton, forall_eq_or_imp, forall_eq,
      List.not_mem_nil, false_implies, implies_true, and_true]
    norm_num
  · rw [transit_eq]; rfl
  · rw [transit_eq]; rfl

/-- C10: the constants of `app()` are never an invalid configuration:
forward `(0,0,0) - (3,4,5)` is non-zero and its cross product with the up
vector `(0,1,0)` is `(5, 0, -3)`, non-zero; near `1 > 0` and far `15 > 1`; the
axes `(1,0,0)` and `(0,0,1)` have non-zero length; the knots are valid.  The
whole configuration is valid exactly when `aspect > 0`. -/
theorem config_valid_iff (aspect : F) :
    cross (![0 - 3, 0 - 4, 0 - 5] : Vec3 F) ![0, 1, 0] = ![5, 0, -3] ∧
      lookatValid (3 : F) 4 5 0 0 0 0 1 0 ∧
      ((0 : F) < 1 ∧ (1 : F) < 15) ∧
      (perspectiveValid aspect (1 : F) 15 ↔ 0 < aspect) ∧
      axisValid (1 : F) 0 0 ∧
      axisValid (0 : F) 0 1 ∧
      knotsValid ((transit F).take (points F)) ∧
      (configValid aspect ↔ 0 < aspect) := by
  have hc : cross (![0 - 3, 0 - 4, 0 - 5] : Vec3 F) ![0, 1, 0] = ![5, 0, -3] := by
    funext i
    fin_cases i <;> simp [cross]
  have hl : lookatValid (3 : F) 4 5 0 0 0 0 1 0 := by
    refine ⟨fun h => ?_, fun h => ?_⟩
    · have := congrFun h 0
      simp at this
    · rw [hc] at h
      have := congrFun h 0
      simp at this
  have hp : perspectiveValid aspect (1 : F) 15 ↔ 0 < aspect := by
    unfold perspectiveValid
    constructor
    · exact fun h => h.1
    · exact fun h => ⟨h, by norm_num, by norm_num⟩
  have ha0 : axisValid (1 : F) 0 0 := by unfold axisValid; norm_num
  have ha1 : axisValid (0 : F) 0 1 := by unfold axisValid; norm_num
  have hk : knotsValid ((transit F).take (points F)) := by
    have : (transit F).take (points F) = transit F := List.take_length _
    rw [this]
    refine ⟨by simp [transit], ?_⟩
    rw [transit_eq]
    simp only [List.chain'_cons, List.chain'_singleton, and_true]
    norm_num
  refine ⟨hc, hl, ⟨by norm_num, by norm_num⟩, hp, ha0, ha1, hk, ?_⟩
  unfold configValid
  constructor
  · exact fun h => hp.mp h.2.1
  · exact fun h => ⟨hl, hp.mpr h, ha0, ha1, hk⟩

/-! ## The spline at its knots -/

theorem catmullRom_zero (p0 p1 p2 p3 : F) : catmullRom p0 p1 p2 p3 0 = p1 := by
  unfold catmullRom; ring

theorem catmullRom_one (p0 p1 p2 p3 : F) : catmullRom p0 p1 p2 p3 1 = p2 := by
  unfold catmullRom; ring

/-- In a strictly increasing list the entries grow with the index. -/
theorem getD_le_getD {knots : List F} (hs : knots.Sorted (· < ·)) {i j : ℕ} (hij : i ≤ j)
    (hj : j < knots.length) : knots.getD i 0 ≤ knots.getD j 0 := by
  rw [List.getD_eq_getElem _ _ (lt_of_le_of_lt hij hj), List.getD_eq_getElem _ _ hj]
  rcases eq_or_lt_of_le hij with h | h
  · subst h; exact le_rfl
  · exact le_of_lt (hs.rel_get_of_lt (a := ⟨i, lt_of_le_of_lt hij hj⟩) (b := ⟨j, hj⟩) h)

theorem getD_lt_getD {knots : List F} (hs : knots.Sorted (· < ·)) {i j : ℕ} (hij : i < j)
    (hj : j < knots.length) : knots.getD i 0 < knots.getD j 0 := by
  rw [List.getD_eq_getElem _ _ (lt_trans hij hj), List.getD_eq_getElem _ _ hj]
  exact hs.rel_get_of_lt (a := ⟨i, lt_trans hij hj⟩) (b := ⟨j, hj⟩) hij

/-- The scan started at a knot stops at the segment beginning there, or at the
last segment for the last knot. -/
theorem segmentIndex_knot : ∀ (knots : List F) (i : ℕ), knots.Sorted (· < ·) →
    2 ≤ knots.length → i < knots.length →
    segmentIndex knots (knots.getD i 0) = min i (knots.length - 2)
  | [], _, _, h, _ => by simp at h
  | [_], _, _, h, _ => by simp at h
  | [_, _], i, _, _, _ => by simp [segmentIndex]
  | k0 :: k1 :: k2 :: rest, 0, hs, _, _ => by
      have h : k0 < k1 := by
        have := getD_lt_getD hs (i := 0) (j := 1) (by norm_num) (by simp)
        simpa using this
      simp [segmentIndex, h]
  | k0 :: k1 :: k2 :: rest, i + 1, hs, _, hi => by
      have hs1 : (k1 :: k2 :: rest).Sorted (· < ·) := hs.tail
      have hi1 : i < (k1 :: k2 :: rest).length := by simpa using hi
      have ih := segmentIndex_knot (k1 :: k2 :: rest) i hs1 (by simp) hi1
      have hge : k1 ≤ (k1 :: k2 :: rest).getD i 0 := by
        have := getD_le_getD hs1 (i := 0) (j := i) (Nat.zero_le _) hi1
        simpa using this
      rw [List.getD_cons_succ, segmentIndex, if_neg (not_lt.mpr hge), ih]
      simp only [List.length_cons]
      omega

/-- Evaluating the modelled spline at a knot returns the control point of that knot. -/
theorem evaluate_knot (pts : List (Vec3 F)) (knots : List F) (hs : knots.Sorted (· < ·))
    (hn : 2 ≤ knots.length) (i : ℕ) (hi : i < knots.length) :
    evaluate pts knots (knots.getD i 0) = some (pts.getD i 0) := by
  have hlo : knots.getD 0 0 ≤ knots.getD i 0 := getD_le_getD hs (Nat.zero_le _) hi
  have hhi : knots.getD i 0 ≤ knots.getD (knots.length - 1) 0 :=
    getD_le_getD hs (by omega) (by omega)
  have htc : max (knots.getD 0 0) (min (knots.getD i 0) (knots.getD (knots.length - 1) 0))
      = knots.getD i 0 := by
    rw [min_eq_left hhi, max_eq_right hlo]
  unfold evaluate
  rw [if_neg (by omega)]
  simp only [htc, segmentIndex_knot knots i hs hn hi]
  congr 1
  rcases Nat.lt_or_ge (i + 1) knots.length with h | h
  · have hm : min i (knots.length - 2) = i := by omega
    funext c
    rw [hm, sub_self, zero_div, catmullRom_zero]
  · have hm : min i (knots.length - 2) = knots.length - 2 := by omega
    have hi1 : i = knots.length - 2 + 1 := by omega
    have hlt : knots.getD (knots.length - 2) 0 < knots.getD (knots.length - 2 + 1) 0 :=
      getD_lt_getD hs (by omega) (by omega)
    funext c
    rw [hm, ← hi1, div_self, catmullRom_one]
    rw [hi1]
    exact (sub_pos.mpr hlt).ne'

theorem transit_sorted : (transit F).Sorted (· < ·) := by
  rw [transit_eq]
  simp only [List.Sorted, List.pairwise_cons, List.mem_cons, List.mem_singleton,
    forall_eq_or_imp, forall_eq, List.not_mem_nil, false_implies, implies_true,
    List.Pairwise.nil, and_true]
  norm_num

/-- The location `app()` gets from the modelled `spline` at the knot of index `i`. -/
theorem spline_route_knot (i : ℕ) (hi : i < 5) :
    spline (route F) (transit F) (points F) ((transit F).getD i 0) = (route F).getD i 0 := by
  have ht : (transit F).take (points F) = transit F := List.take_length _
  have hr : (route F).take (points F) = route F := by rw [points_eq]; rfl
  unfold spline
  rw [ht, hr, evaluate_knot (route F) (transit F) transit_sorted (by simp [transit]) i
    (by simpa [transit] using hi)]
  rfl

/-- C8: evaluating the modelled spline at the knot of any control point of a
path (strictly increasing knots, at least two, as many points as knots)
returns exactly that control point; for the path of `app()` the location at
`t = 0` is `(-2, -1, -3)` and at `t = 1` is `(0, 0, 0)`. -/
theorem evaluate_at_knot (pts : List (Vec3 F)) (knots : List F)
    (hs : knots.Sorted (· < ·)) (hn : 2 ≤ knots.length) (hlen : pts.length = knots.length)
    (i : ℕ) (hi : i < knots.length) :
    evaluate pts knots knots[i] = pts[i]? ∧
      spline (route F) (transit F) (points F) 0 = ![-2, -1, -3] ∧
      spline (route F) (transit F) (points F) 1 = ![0, 0, 0] := by
  refine ⟨?_, ?_, ?_⟩
  · have h := evaluate_knot pts knots hs hn i hi
    rw [List.getD_eq_getElem _ _ hi] at h
    rw [h, List.getD_eq_getElem _ _ (by omega), List.getElem?_eq_getElem (by omega)]
  · have := spline_route_knot (F := F) 0 (by norm_num)
    simpa [transit, route] using this
  · have := spline_route_knot (F := F) 4 (by norm_num)
    simpa [transit, route] using this

theorem evaluate_at_knot_witness :
    (transit ℚ).Sorted (· < ·) ∧ 2 ≤ (transit ℚ).length ∧
      (route ℚ).length = (transit ℚ).length ∧ 2 < (transit ℚ).length ∧
      evaluate (route ℚ) (transit ℚ) ((transit ℚ).getD 2 0) = (route ℚ)[2]? ∧
      spline (route ℚ) (transit ℚ) (points ℚ) 0 = ![-2, -1, -3] ∧
      spline (route ℚ) (transit ℚ) (points ℚ) 1 = ![0, 0, 0] :=
  ⟨transit_sorted, by simp [transit], rfl, by simp [transit],
    evaluate_at_knot (route ℚ) (transit ℚ) transit_sorted (by simp [transit]) rfl 2
      (by simp [transit])⟩

/-! ## Slerp at its ends -/

theorem qnormalize_unit (M : CMath F) (hsqrt : M.sqrt 1 = 1) {q : Quat F}
    (hq : qdot q q = 1) : qnormalize M q = q := by
  funext i
  simp [qnormalize, hq, hsqrt]

theorem renorm_unit (M : CMath F) {q : Quat F} (hq : qdot q q = 1) : renorm M q = q := by
  simp [renorm, hq]

theorem qdot_neg_neg (q : Quat F) : qdot (-q) (-q) = qdot q q := by
  simp [qdot]

/-- A quaternion and its negative give the same rotation matrix. -/
theorem qrot_neg (q : Quat F) : qrot (-q) = qrot q := by
  simp [qrot]

/-- At `t = 0` the arc starts at its first end. -/
theorem slerpArc_zero (M : CMath F) (P : SlerpPolicy F) (hM : CMathLaws M P.eps)
    (a b : Quat F) (ha : qdot a a = 1) (c : F) (hc : 0 ≤ c) : slerpArc M P a b c 0 = a := by
  unfold slerpArc
  split_ifs with h
  · have : (fun i => (1 - 0) * a i + 0 * b i) = a := by funext i; ring
    rw [this, qnormalize_unit M hM.sqrt_one ha]
  · have hs := hM.sin_acos_ne_zero c hc (not_le.mp h)
    have : (fun i => M.sin ((1 - 0) * M.acos c) / M.sin (M.acos c) * a i
        + M.sin (0 * M.acos c) / M.sin (M.acos c) * b i) = a := by
      funext i
      rw [sub_zero, one_mul, zero_mul, hM.sin_zero, div_self hs]
      ring
    simp only [this, renorm_unit M ha]

/-- At `t = 1` the arc ends at its second end. -/
theorem slerpArc_one (M : CMath F) (P : SlerpPolicy F) (hM : CMathLaws M P.eps)
    (a b : Quat F) (hb : qdot b b = 1) (c : F) (hc : 0 ≤ c) : slerpArc M P a b c 1 = b := by
  unfold slerpArc
  split_ifs with h
  · have : (fun i => (1 - 1) * a i + 1 * b i) = b := by funext i; ring
    rw [this, qnormalize_unit M hM.sqrt_one hb]
  · have hs := hM.sin_acos_ne_zero c hc (not_le.mp h)
    have : (fun i => M.sin ((1 - 1) * M.acos c) / M.sin (M.acos c) * a i
        + M.sin (1 * M.acos c) / M.sin (M.acos c) * b i) = b := by
      funext i
      rw [sub_self, one_mul, zero_mul, hM.sin_zero, div_self hs]
      ring
    simp only [this, renorm_unit M hb]

theorem slerp_zero_cases (M : CMath F) (P : SlerpPolicy F) (hM : CMathLaws M P.eps)
    (q0 q1 : Quat F) (h0 : qdot q0 q0 = 1) :
    slerp M P q0 q1 0 = q0 ∨ slerp M P q0 q1 0 = -q0 := by
  unfold slerp
  simp only
  split_ifs with hd hn
  · right
    exact slerpArc_zero M P hM _ _ (by rw [qdot_neg_neg, h0]) _ (by linarith)
  · left
    exact slerpArc_zero M P hM _ _ h0 _ (by linarith)
  · left
    exact slerpArc_zero M P hM _ _ h0 _ (not_lt.mp hd)

theorem slerp_one_cases (M : CMath F) (P : SlerpPolicy F) (hM : CMathLaws M P.eps)
    (q0 q1 : Quat F) (h1 : qdot q1 q1 = 1) :
    slerp M P q0 q1 1 = q1 ∨ slerp M P q0 q1 1 = -q1 := by
  unfold slerp
  simp only
  split_ifs with hd hn
  · left
    exact slerpArc_one M P hM _ _ h1 _ (by linarith)
  · right
    exact slerpArc_one M P hM _ _ (by rw [qdot_neg_neg, h1]) _ (by linarith)
  · left
    exact slerpArc_one M P hM _ _ h1 _ (not_lt.mp hd)

theorem slerp_nonneg (M : CMath F) (P : SlerpPolicy F) (q0 q1 : Quat F) (t : F)
    (hd : 0 ≤ qdot q0 q1) : slerp M P q0 q1 t = slerpArc M P q0 q1 (qdot q0 q1) t := by
  unfold slerp
  simp only
  rw [if_neg (not_lt.mpr hd)]

/-- The quaternion built by the modelled `qmake` about the x or the z axis has unit length. -/
theorem qmake_unit (M : CMath F) (eps : F) (hM : CMathLaws M eps) (x z a : F)
    (hxz : x * x + 0 * 0 + z * z = 1) :
    qdot (qmake M x 0 z a) (qmake M x 0 z a) = 1 := by
  have hp := hM.sin_sq_add_cos_sq (a / 2)
  unfold qmake
  simp only [hxz, hM.sqrt_one, one_ne_zero, if_false]
  simp only [qdot, Matrix.cons_val_zero, Matrix.cons_val_one, Matrix.head_cons,
    Matrix.cons_val_two, Matrix.tail_cons, Matrix.cons_val_three]
  have e : x / 1 * M.sin (a / 2) * (x / 1 * M.sin (a / 2))
      + 0 / 1 * M.sin (a / 2) * (0 / 1 * M.sin (a / 2))
      + z / 1 * M.sin (a / 2) * (z / 1 * M.sin (a / 2)) + M.cos (a / 2) * M.cos (a / 2)
      = (x * x + 0 * 0 + z * z) * (M.sin (a / 2) * M.sin (a / 2))
        + M.cos (a / 2) * M.cos (a / 2) := by ring
  rw [e, hxz, one_mul, hp]

/-- C7 (amended): for the modelled `slerp` and unit quaternions `q0`, `q1`
whose dot product is not negative, `slerp(q0, q1, 0) = q0` and
`slerp(q0, q1, 1) = q1`; for every pair of unit quaternions the two ends are
reached up to sign, so that the rotation matrices agree; in particular the
rotation matrix `mr` of `app()` at `t = 0` is `qrot(q0)` for
`q0 = qmake(1, 0, 0, 1.0)`. -/
theorem slerp_endpoints (M : CMath F) (P : SlerpPolicy F) (hM : CMathLaws M P.eps)
    (q0 q1 : Quat F) (h0 : qdot q0 q0 = 1) (h1 : qdot q1 q1 = 1) :
    (0 ≤ qdot q0 q1 → slerp M P q0 q1 0 = q0 ∧ slerp M P q0 q1 1 = q1) ∧
      (slerp M P q0 q1 0 = q0 ∨ slerp M P q0 q1 0 = -q0) ∧
      (slerp M P q0 q1 1 = q1 ∨ slerp M P q0 q1 1 = -q1) ∧
      qrot (slerp M P q0 q1 0) = qrot q0 ∧
      qrot (slerp M P q0 q1 1) = qrot q1 ∧
      frameMr (specLib M P) 0 = qrot (qmake M 1 0 0 1) := by
  have a0 := slerp_zero_cases M P hM q0 q1 h0
  have a1 := slerp_one_cases M P hM q0 q1 h1
  refine ⟨fun hd => ?_, a0, a1, ?_, ?_, ?_⟩
  · rw [slerp_nonneg M P q0 q1 0 hd, slerp_nonneg M P q0 q1 1 hd]
    exact ⟨slerpArc_zero M P hM _ _ h0 _ hd, slerpArc_one M P hM _ _ h1 _ hd⟩
  · rcases a0 with h | h <;> rw [h]
    exact qrot_neg q0
  · rcases a1 with h | h <;> rw [h]
    exact qrot_neg q1
  · have u0 : qdot (qmake M 1 0 0 1) (qmake M 1 0 0 1) = 1 :=
      qmake_unit M P.eps hM 1 0 1 (by norm_num)
    show qrot (slerp M P (qmake M 1 0 0 1) (qmake M 0 0 1 2) ((0 : ℚ) : F)) = _
    rw [Rat.cast_zero]
    rcases slerp_zero_cases M P hM (qmake M 1 0 0 1) (qmake M 0 0 1 2) u0 with h | h <;> rw [h]
    exact qrot_neg _

/-! ## The exact real functions -/

/-- The exact real functions satisfy the laws used for `slerp` and `qmake`. -/
theorem real_laws (eps : ℝ) (heps : 0 ≤ eps) :
    CMathLaws (⟨Real.sin, Real.cos, Real.tan, Real.arccos, Real.sqrt⟩ : CMath ℝ) eps where
  sin_zero := Real.sin_zero
  sqrt_one := Real.sqrt_one
  sin_sq_add_cos_sq := fun x => by
    have := Real.sin_sq_add_cos_sq x
    simp only [sq] at this
    exact this
  sin_acos_ne_zero := fun c h0 h1 => by
    show Real.sin (Real.arccos c) ≠ 0
    rw [Real.sin_arccos]
    apply Real.sqrt_ne_zero'.mpr
    nlinarith

theorem slerp_endpoints_witness :
    CMathLaws (⟨Real.sin, Real.cos, Real.tan, Real.arccos, Real.sqrt⟩ : CMath ℝ) (1 / 1000) ∧
      qdot (![1, 0, 0, 0] : Quat ℝ) ![1, 0, 0, 0] = 1 ∧
      qdot (![0, 1, 0, 0] : Quat ℝ) ![0, 1, 0, 0] = 1 ∧
      ((0 ≤ qdot (![1, 0, 0, 0] : Quat ℝ) ![0, 1, 0, 0] →
          slerp ⟨Real.sin, Real.cos, Real.tan, Real.arccos, Real.sqrt⟩ ⟨1 / 1000, false⟩
              (![1, 0, 0, 0] : Quat ℝ) ![0, 1, 0, 0] 0 = ![1, 0, 0, 0] ∧
            slerp ⟨Real.sin, Real.cos, Real.tan, Real.arccos, Real.sqrt⟩ ⟨1 / 1000, false⟩
              (![1, 0, 0, 0] : Quat ℝ) ![0, 1, 0, 0] 1 = ![0, 1, 0, 0]) ∧
        (slerp ⟨Real.sin, Real.cos, Real.tan, Real.arccos, Real.sqrt⟩ ⟨1 / 1000, false⟩
              (![1, 0, 0, 0] : Quat ℝ) ![0, 1, 0, 0] 0 = ![1, 0, 0, 0] ∨
          slerp ⟨Real.sin, Real.cos, Real.tan, Real.arccos, Real.sqrt⟩ ⟨1 / 1000, false⟩
              (![1, 0, 0, 0] : Quat ℝ) ![0, 1, 0, 0] 0 = -![1, 0, 0, 0]) ∧
        (slerp ⟨Real.sin, Real.cos, Real.tan, Real.arccos, Real.sqrt⟩ ⟨1 / 1000, false⟩
              (![1, 0, 0, 0] : Quat ℝ) ![0, 1, 0, 0] 1 = ![0, 1, 0, 0] ∨
          slerp ⟨Real.sin, Real.cos, Real.tan, Real.arccos, Real.sqrt⟩ ⟨1 / 1000, false⟩
              (![1, 0, 0, 0] : Quat ℝ) ![0, 1, 0, 0] 1 = -![0, 1, 0, 0]) ∧
        qrot (slerp ⟨Real.sin, Real.cos, Real.tan, Real.arccos, Real.sqrt⟩ ⟨1 / 1000, false⟩
              (![1, 0, 0, 0] : Quat ℝ) ![0, 1, 0, 0] 0) = qrot ![1, 0, 0, 0] ∧
        qrot (slerp ⟨Real.sin, Real.cos, Real.tan, Real.arccos, Real.sqrt⟩ ⟨1 / 1000, false⟩
              (![1, 0, 0, 0] : Quat ℝ) ![0, 1, 0, 0] 1) = qrot ![0, 1, 0, 0] ∧
        frameMr (specLib (⟨Real.sin, Real.cos, Real.tan, Real.arccos, Real.sqrt⟩ : CMath ℝ)
            ⟨1 / 1000, false⟩) 0 =
          qrot (qmake (⟨Real.sin, Real.cos, Real.tan, Real.arccos, Real.sqrt⟩ : CMath ℝ)
            1 0 0 1)) :=
  ⟨real_laws _ (by norm_num), by simp [qdot], by simp [qdot],
    slerp_endpoints ⟨Real.sin, Real.cos, Real.tan, Real.arccos, Real.sqrt⟩ ⟨1 / 1000, false⟩
      (real_laws _ (by norm_num)) ![1, 0, 0, 0] ![0, 1, 0, 0] (by simp [qdot]) (by simp [qdot])⟩

/-- C7 (counterexample): the unit quaternions `q0 = (0, 0, 0, 1)` and
`q1 = (3/5, 0, 0, -4/5)` have the negative dot product `-4/5`.  Whichever
operand the shorter-arc rule negates, one end is missed: negating the second
gives `slerp(q0, q1, 1) = -q1`, negating the first gives `slerp(q0, q1, 0) = -q0`. -/
theorem slerp_endpoint_negated :
    qdot (![0, 0, 0, 1] : Quat ℝ) ![0, 0, 0, 1] = 1 ∧
      qdot (![3 / 5, 0, 0, -(4 / 5)] : Quat ℝ) ![3 / 5, 0, 0, -(4 / 5)] = 1 ∧
      slerp ⟨Real.sin, Real.cos, Real.tan, Real.arccos, Real.sqrt⟩ ⟨1 / 1000, false⟩
          (![0, 0, 0, 1] : Quat ℝ) ![3 / 5, 0, 0, -(4 / 5)] 1 ≠ ![3 / 5, 0, 0, -(4 / 5)] ∧
      slerp ⟨Real.sin, Real.cos, Real.tan, Real.arccos, Real.sqrt⟩ ⟨1 / 1000, true⟩
          (![0, 0, 0, 1] : Quat ℝ) ![3 / 5, 0, 0, -(4 / 5)] 0 ≠ ![0, 0, 0, 1] := by
  have u0 : qdot (![0, 0, 0, 1] : Quat ℝ) ![0, 0, 0, 1] = 1 := by simp [qdot]
  have u1 : qdot (![3 / 5, 0, 0, -(4 / 5)] : Quat ℝ) ![3 / 5, 0, 0, -(4 / 5)] = 1 := by
    simp [qdot]; norm_num
  have hd : qdot (![0, 0, 0, 1] : Quat ℝ) ![3 / 5, 0, 0, -(4 / 5)] = -(4 / 5) := by
    simp [qdot]
  have hL := real_laws (1 / 1000) (by norm_num)
  refine ⟨u0, u1, ?_, ?_⟩
  · have : slerp ⟨Real.sin, Real.cos, Real.tan, Real.arccos, Real.sqrt⟩ ⟨1 / 1000, false⟩
        (![0, 0, 0, 1] : Quat ℝ) ![3 / 5, 0, 0, -(4 / 5)] 1 = -![3 / 5, 0, 0, -(4 / 5)] := by
      unfold slerp
      simp only [hd]
      rw [if_pos (by norm_num), if_neg (by simp)]
      exact slerpArc_one _ _ hL _ _ (by rw [qdot_neg_neg, u1]) _ (by norm_num)
    rw [this]
    intro h
    have := congrFun h 0
    simp at this
    linarith
  · have : slerp ⟨Real.sin, Real.cos, Real.tan, Real.arccos, Real.sqrt⟩ ⟨1 / 1000, true⟩
        (![0, 0, 0, 1] : Quat ℝ) ![3 / 5, 0, 0, -(4 / 5)] 0 = -![0, 0, 0, 1] := by
      unfold slerp
      simp only [hd]
      rw [if_pos (by norm_num), if_pos (by simp)]
      exact slerpArc_zero _ _ hL _ _ (by rw [qdot_neg_neg, u0]) _ (by norm_num)
    rw [this]
    intro h
    have := congrFun h 3
    simp at this
    linarith

/-! ## Dependence of a frame on its inputs -/

theorem frameT_zero : frameT 0 = 0 :=
  frameT_zero_of_fmod_zero (by simp [fmod, truncToInt])

/-- Entry (0, 3) of the clip matrix of the modelled library at the start of
the animation, in terms of the first row of the view matrix. -/
theorem clip_entry (M : CMath F) (P : SlerpPolicy F) (aspect : F) :
    (frame (specLib M P) 0 aspect).mc (ix 0 3) =
      1 / M.tan (1 / 2 / 2) / aspect *
        (lookat M 3 4 5 0 0 0 0 1 0 (ix 0 0) * (-2) + lookat M 3 4 5 0 0 0 0 1 0 (ix 0 1) * (-1)
          + lookat M 3 4 5 0 0 0 0 1 0 (ix 0 2) * (-3) + lookat M 3 4 5 0 0 0 0 1 0 (ix 0 3)) := by
  have hloc : spline (route F) (transit F) (points F) ((frameT 0 : ℚ) : F) = ![-2, -1, -3] := by
    rw [frameT_zero, Rat.cast_zero]
    have := spline_route_knot (F := F) 0 (by norm_num)
    simpa [transit, route] using this
  show multiply (perspective M (1 / 2) aspect 1 15) (multiply (lookat M 3 4 5 0 0 0 0 1 0)
    (multiply (translate (spline (route F) (transit F) (points F) ((frameT 0 : ℚ) : F) 0)
        (spline (route F) (transit F) (points F) ((frameT 0 : ℚ) : F) 1)
        (spline (route F) (transit F) (points F) ((frameT 0 : ℚ) : F) 2))
      (qrot (slerp M P (qmake M 1 0 0 1) (qmake M 0 0 1 2) ((frameT 0 : ℚ) : F))))) (ix 0 3) = _
  rw [hloc]
  generalize slerp M P (qmake M 1 0 0 1) (qmake M 0 0 1 2) ((frameT 0 : ℚ) : F) = q
  have p0 : perspective M (1 / 2) aspect 1 15 (ix 0 0) = 1 / M.tan (1 / 2 / 2) / aspect := rfl
  have p1 : perspective M (1 / 2) aspect 1 15 (ix 0 1) = 0 := rfl
  have p2 : perspective M (1 / 2) aspect 1 15 (ix 0 2) = 0 := rfl
  have p3 : perspective M (1 / 2) aspect 1 15 (ix 0 3) = 0 := rfl
  have r0 : qrot q (ix 0 3) = 0 := rfl
  have r1 : qrot q (ix 1 3) = 0 := rfl
  have r2 : qrot q (ix 2 3) = 0 := rfl
  have r3 : qrot q (ix 3 3) = 1 := rfl
  have t0 : translate ((![-2, -1, -3] : Vec3 F) 0) ((![-2, -1, -3] : Vec3 F) 1)
      ((![-2, -1, -3] : Vec3 F) 2) (ix 0 3) = -2 := rfl
  have t1 : translate ((![-2, -1, -3] : Vec3 F) 0) ((![-2, -1, -3] : Vec3 F) 1)
      ((![-2, -1, -3] : Vec3 F) 2) (ix 1 3) = -1 := rfl
  have t2 : translate ((![-2, -1, -3] : Vec3 F) 0) ((![-2, -1, -3] : Vec3 F) 1)
      ((![-2, -1, -3] : Vec3 F) 2) (ix 2 3) = -3 := rfl
  have t3 : translate ((![-2, -1, -3] : Vec3 F) 0) ((![-2, -1, -3] : Vec3 F) 1)
      ((![-2, -1, -3] : Vec3 F) 2) (ix 3 3) = 1 := rfl
  simp only [multiply_apply, Fin.sum_univ_four, p0, p1, p2, p3, r0, r1, r2, r3, t0, t1, t2, t3]
  ring

/-- The forward vector of the view of `app()`, from the eye (3, 4, 5) to the origin. -/
theorem forward_eq (M : CMath F) :
    normalize3 M ![0 - 3, 0 - 4, 0 - 5]
      = ![-3 / M.sqrt 50, -4 / M.sqrt 50, -5 / M.sqrt 50] := by
  have h : dot3 (![0 - 3, 0 - 4, 0 - 5] : Vec3 F) ![0 - 3, 0 - 4, 0 - 5] = 50 := by
    simp [dot3]; norm_num
  funext i
  unfold normalize3
  rw [h]
  fin_cases i <;> simp

/-- The right vector of the view of `app()`. -/
theorem right_eq (M : CMath F) :
    normalize3 M (cross (normalize3 M ![0 - 3, 0 - 4, 0 - 5]) ![0, 1, 0])
      = ![5 / M.sqrt 50 / M.sqrt (34 / (M.sqrt 50 * M.sqrt 50)), 0,
          -3 / M.sqrt 50 / M.sqrt (34 / (M.sqrt 50 * M.sqrt 50))] := by
  have hc : cross (normalize3 M ![0 - 3, 0 - 4, 0 - 5]) ![0, 1, 0]
      = ![5 / M.sqrt 50, 0, -3 / M.sqrt 50] := by
    rw [forward_eq]
    funext i
    fin_cases i <;> simp [cross]
    ring
  have hd : dot3 (![5 / M.sqrt 50, 0, -3 / M.sqrt 50] : Vec3 F)
      ![5 / M.sqrt 50, 0, -3 / M.sqrt 50] = 34 / (M.sqrt 50 * M.sqrt 50) := by
    simp [dot3]; ring
  rw [hc]
  funext i
  unfold normalize3
  rw [hd]
  fin_cases i <;> simp

/-- The first row of the modelled view matrix of `app()` applied to the first
way point (-2, -1, -3). -/
theorem lookat_row (M : CMath F) :
    lookat M 3 4 5 0 0 0 0 1 0 (ix 0 0) * (-2) + lookat M 3 4 5 0 0 0 0 1 0 (ix 0 1) * (-1)
      + lookat M 3 4 5 0 0 0 0 1 0 (ix 0 2) * (-3) + lookat M 3 4 5 0 0 0 0 1 0 (ix 0 3)
    = -1 / (M.sqrt 50 * M.sqrt (34 / (M.sqrt 50 * M.sqrt 50))) := by
  have l0 : lookat M 3 4 5 0 0 0 0 1 0 (ix 0 0) =
    normalize3 M (cross (normalize3 M ![0 - 3, 0 - 4, 0 - 5]) ![0, 1, 0]) 0 := rfl
  have l1 : lookat M 3 4 5 0 0 0 0 1 0 (ix 0 1) =
    normalize3 M (cross (normalize3 M ![0 - 3, 0 - 4, 0 - 5]) ![0, 1, 0]) 1 := rfl
  have l2 : lookat M 3 4 5 0 0 0 0 1 0 (ix 0 2) =
    normalize3 M (cross (normalize3 M ![0 - 3, 0 - 4, 0 - 5]) ![0, 1, 0]) 2 := rfl
  have l3 : lookat M 3 4 5 0 0 0 0 1 0 (ix 0 3) =
    -dot3 (normalize3 M (cross (normalize3 M ![0 - 3, 0 - 4, 0 - 5]) ![0, 1, 0])) ![3, 4, 5] := rfl
  rw [l0, l1, l2, l3, right_eq]
  simp only [dot3, Matrix.cons_val_zero, Matrix.cons_val_one, Matrix.head_cons,
    Matrix.cons_val_two, Matrix.tail_cons]
  ring

/-! ## The drawing loop: what a frame depends on -/

/-- The knots that `app()` hands to `spline` are a valid configuration. -/
theorem transit_knotsValid : knotsValid ((transit F).take (points F)) := by
  have : (transit F).take (points F) = transit F := List.take_length _
  rw [this]
  refine ⟨by simp [transit], ?_⟩
  rw [transit_eq]
  simp only [List.chain'_cons, List.chain'_singleton, and_true]
  norm_num

/-- On at least two knots `evaluate` returns a point. -/
theorem evaluate_getD (pts : List (Vec3 F)) (knots : List F) (t : F) (h : 2 ≤ knots.length)
    (p p' : Vec3 F) : (evaluate pts knots t).getD p = (evaluate pts knots t).getD p' := by
  unfold evaluate
  rw [if_neg (by omega)]
  rfl

/-- The library of the specification computes every result from the arguments alone. -/
theorem specCLib_pure (M : CMath F) (P : SlerpPolicy F) : (specCLib M P).Pure where
  lookat := fun _ _ _ _ _ _ _ _ _ _ _ _ _ => rfl
  qmake := fun _ _ _ _ _ _ _ _ => rfl
  slerp := fun _ _ _ _ _ _ _ => rfl
  qrot := fun _ _ _ _ _ => rfl
  spline := fun _ _ p p' route transit points t h =>
    evaluate_getD (route.take points) (transit.take points) t h.1 p p'
  translate := fun _ _ _ _ _ _ _ => rfl
  multiply := fun _ _ _ _ _ _ => rfl
  perspective := fun _ _ _ _ _ _ _ _ => rfl

/-- The library of the specification, seen as functions, is `specLib`. -/
theorem specCLib_toLib (M : CMath F) (P : SlerpPolicy F) (s : Unit) :
    (specCLib M P).toLib s = specLib M P := rfl

/-- With a library that computes its results from the arguments alone, what a
pass stores in the uniforms is `frame` of the two values read in the pass,
whatever the library state and the arrays held when the pass started. -/
theorem pass_output {S : Type} (L : CLib S F) (hL : L.Pure) (s0 s1 s : S) (mv0 : Mat F)
    (k : Stack F) (e : ℚ) (aspect : F) :
    (pass L (L.lookat s1 mv0 3 4 5 0 0 0 0 1 0).2 s k e aspect).2.2
      = frame (L.toLib s0) e aspect := by
  have hv := transit_knotsValid (F := F)
  unfold pass frame frameMv frameMr frameMt frameMp CLib.toLib
  simp only
  rw [hL.lookat s1 s0 mv0 0,
    hL.qmake s s0 k.q0 0,
    hL.qmake (L.qmake s k.q0 1 0 0 1).1 s0 k.q1 0,
    hL.slerp _ s0 k.qt 0,
    hL.qrot _ s0 k.mr 0,
    hL.spline _ s0 k.location 0 _ _ _ _ hv,
    hL.translate _ s0 k.mt 0,
    hL.multiply _ s0 k.mm 0,
    hL.multiply _ s0 k.mw 0,
    hL.perspective _ s0 k.mp 0,
    hL.multiply _ s0 k.mc 0]

/-- With such a library the loop stores, pass by pass, `frame` of the readings. -/
theorem loop_eq {S : Type} (L : CLib S F) (hL : L.Pure) (s0 s1 : S) (mv0 : Mat F)
    (readings : List (ℚ × F)) : ∀ (s : S) (k : Stack F),
    loop L (L.lookat s1 mv0 3 4 5 0 0 0 0 1 0).2 s k readings
      = readings.map fun r => frame (L.toLib s0) r.1 r.2 := by
  induction readings with
  | nil => intro s k; rfl
  | cons r rest ih =>
    intro s k
    rw [loop, ih, pass_output L hL s0 s1 s mv0 k]
    rfl

theorem app_eq {S : Type} (L : CLib S F) (hL : L.Pure) (s0 s : S) (mv0 : Mat F) (k : Stack F)
    (readings : List (ℚ × F)) :
    app L s mv0 k readings = readings.map fun r => frame (L.toLib s0) r.1 r.2 :=
  loop_eq L hL s0 s mv0 readings _ k

/-- The purity of the library cannot be dropped: with a library whose
`multiply` counts its calls in the library state and writes the count into
its result, two passes of one run that read the same clock value and the same
aspect store different clip matrices. -/
theorem impure_library_frames_differ :
    (app (⟨fun s _ _ _ _ _ _ _ _ _ _ => (s, 0), fun s _ _ _ _ _ => (s, 0),
        fun s _ _ _ _ => (s, 0), fun s _ _ => (s, 0), fun s _ _ _ _ _ => (s, 0),
        fun s _ _ _ _ => (s, 0), fun s _ _ _ => (s + 1, fun _ => (s : ℚ)),
        fun s _ _ _ _ _ => (s, 0)⟩ : CLib ℕ ℚ) 0 0 ⟨0, 0, 0, 0, 0, 0, 0, 0, 0, 0⟩
        [(0, 1), (0, 1)]).map (fun o => o.mc 0) = [2, 5] := by
  simp [app, loop, pass]

/-- With the library of the specification the clip matrix of the first frame
changes with the window aspect, for every choice of elementary functions
whose tangent of `fovy / 2` and whose two square roots in `lookat` are not zero. -/
theorem clip_aspect_ne (M : CMath F) (P : SlerpPolicy F) (ht : M.tan (1 / 2 / 2) ≠ 0)
    (hs : M.sqrt 50 ≠ 0) (hn : M.sqrt (34 / (M.sqrt 50 * M.sqrt 50)) ≠ 0)
    (a₁ a₂ : F) (h : a₁ ≠ a₂) :
    (frame (specLib M P) 0 a₁).mc ≠ (frame (specLib M P) 0 a₂).mc := by
  intro hmc
  have e := congrFun hmc (ix 0 3)
  rw [clip_entry, clip_entry, lookat_row] at e
  have hw : -1 / (M.sqrt 50 * M.sqrt (34 / (M.sqrt 50 * M.sqrt 50))) ≠ 0 :=
    div_ne_zero (by norm_num) (mul_ne_zero hs hn)
  have hf : 1 / M.tan (1 / 2 / 2) ≠ 0 := div_ne_zero one_ne_zero ht
  have e1 := mul_right_cancel₀ hw e
  rw [div_eq_mul_inv, div_eq_mul_inv (1 / M.tan (1 / 2 / 2))] at e1
  have e2 := mul_left_cancel₀ hf e1
  exact h (inv_injective e2)

/-- C5 (amended): a frame of `app()` is a function of the clock value and of
the window aspect read in that frame.  For every library that computes its
results from its arguments alone, and whatever the library state and the
uninitialised arrays hold when `app()` starts, two passes (of one run or of
two runs) that read the same elapsed time store the same `t`, and if they
also read the same aspect they store the same clip matrix; the stored values
are those of `frame`.  The stored `t` is `frameT` of the elapsed time for
every library. -/
theorem frame_deterministic {S : Type} (L : CLib S F) (hL : L.Pure) (s s' : S)
    (mv0 mv0' : Mat F) (k k' : Stack F) (readings readings' : List (ℚ × F)) (i j : ℕ)
    (ri rj : ℚ × F) (hi : readings[i]? = some ri) (hj : readings'[j]? = some rj)
    (he : ri.1 = rj.1) :
    (∃ oi oj, (app L s mv0 k readings)[i]? = some oi ∧
        (app L s' mv0' k' readings')[j]? = some oj ∧
        oi.t = oj.t ∧ (ri.2 = rj.2 → oi.mc = oj.mc) ∧
        oi = frame (L.toLib s) ri.1 ri.2) ∧
      ∀ (L' : CLib S F) (mv : Mat F) (s'' : S) (k'' : Stack F) (aspect : F),
        (pass L' mv s'' k'' ri.1 aspect).2.2.t = frameT rj.1 := by
  refine ⟨⟨frame (L.toLib s) ri.1 ri.2, frame (L.toLib s) rj.1 rj.2, ?_, ?_, ?_, ?_, rfl⟩, ?_⟩
  · rw [app_eq L hL s s mv0 k readings, List.getElem?_map, hi]
    rfl
  · rw [app_eq L hL s s' mv0' k' readings', List.getElem?_map, hj]
    rfl
  · rw [he]
    rfl
  · intro ha
    rw [he, ha]
  · intro L' mv s'' k'' aspect
    rw [← he]
    rfl

theorem frame_deterministic_witness :
    (specCLib (⟨Real.sin, Real.cos, Real.tan, Real.arccos, Real.sqrt⟩ : CMath ℝ)
        ⟨1 / 1000, false⟩).Pure ∧
      ([(15 / 2, 4 / 3), (1, 2)] : List (ℚ × ℝ))[0]? = some (15 / 2, 4 / 3) ∧
      ([(0, 1), (30 / 4, 8 / 6)] : List (ℚ × ℝ))[1]? = some (30 / 4, 8 / 6) ∧
      (15 / 2 : ℚ) = 30 / 4 ∧
      (∃ oi oj,
        (app (specCLib (⟨Real.sin, Real.cos, Real.tan, Real.arccos, Real.sqrt⟩ : CMath ℝ)
            ⟨1 / 1000, false⟩) () 0 ⟨0, 0, 0, 0, 0, 0, 0, 0, 0, 0⟩
            [(15 / 2, 4 / 3), (1, 2)])[0]? = some oi ∧
        (app (specCLib (⟨Real.sin, Real.cos, Real.tan, Real.arccos, Real.sqrt⟩ : CMath ℝ)
            ⟨1 / 1000, false⟩) () 1 ⟨1, 1, 1, 1, 1, 1, 1, 1, 1, 1⟩
            [(0, 1), (30 / 4, 8 / 6)])[1]? = some oj ∧
        oi.t = oj.t ∧ ((4 / 3 : ℝ) = 8 / 6 → oi.mc = oj.mc) ∧
        oi = frame ((specCLib (⟨Real.sin, Real.cos, Real.tan, Real.arccos, Real.sqrt⟩ : CMath ℝ)
            ⟨1 / 1000, false⟩).toLib ()) (15 / 2) (4 / 3)) ∧
      ∀ (L' : CLib Unit ℝ) (mv : Mat ℝ) (s'' : Unit) (k'' : Stack ℝ) (aspect : ℝ),
        (pass L' mv s'' k'' (15 / 2) aspect).2.2.t = frameT (30 / 4) :=
  ⟨specCLib_pure _ _, rfl, rfl, by norm_num,
    frame_deterministic _ (specCLib_pure _ _) () () 0 1 ⟨0, 0, 0, 0, 0, 0, 0, 0, 0, 0⟩
      ⟨1, 1, 1, 1, 1, 1, 1, 1, 1, 1⟩ [(15 / 2, 4 / 3), (1, 2)] [(0, 1), (30 / 4, 8 / 6)] 0 1
      (15 / 2, 4 / 3) (30 / 4, 8 / 6) rfl rfl (by norm_num)⟩

/-- C5 (counterexample): two passes of one run of `app()` that both read the
clock value 0, the first with window aspect 1 and the second with aspect 2,
store the same `t` but different clip matrices (library of the
specification, exact real functions, arrays zero-filled at the start). -/
theorem frame_aspect_dependence :
    app (specCLib (⟨Real.sin, Real.cos, Real.tan, Real.arccos, Real.sqrt⟩ : CMath ℝ)
        ⟨1 / 1000, false⟩) () 0 ⟨0, 0, 0, 0, 0, 0, 0, 0, 0, 0⟩ [(0, 1), (0, 2)] =
      [frame (specLib (⟨Real.sin, Real.cos, Real.tan, Real.arccos, Real.sqrt⟩ : CMath ℝ)
          ⟨1 / 1000, false⟩) 0 1,
        frame (specLib (⟨Real.sin, Real.cos, Real.tan, Real.arccos, Real.sqrt⟩ : CMath ℝ)
          ⟨1 / 1000, false⟩) 0 2] ∧
    (frame (specLib (⟨Real.sin, Real.cos, Real.tan, Real.arccos, Real.sqrt⟩ : CMath ℝ)
        ⟨1 / 1000, false⟩) 0 1).t =
      (frame (specLib (⟨Real.sin, Real.cos, Real.tan, Real.arccos, Real.sqrt⟩ : CMath ℝ)
        ⟨1 / 1000, false⟩) 0 2).t ∧
    (frame (specLib (⟨Real.sin, Real.cos, Real.tan, Real.arccos, Real.sqrt⟩ : CMath ℝ)
        ⟨1 / 1000, false⟩) 0 1).mc ≠
      (frame (specLib (⟨Real.sin, Real.cos, Real.tan, Real.arccos, Real.sqrt⟩ : CMath ℝ)
        ⟨1 / 1000, false⟩) 0 2).mc := by
  refine ⟨?_, rfl, ?_⟩
  · rw [app_eq _ (specCLib_pure _ _) (), specCLib_toLib]
    rfl
  · have hs : (0 : ℝ) < Real.sqrt 50 := Real.sqrt_pos.mpr (by norm_num)
    have hn : (0 : ℝ) < Real.sqrt (34 / (Real.sqrt 50 * Real.sqrt 50)) :=
      Real.sqrt_pos.mpr (by positivity)
    have ht : (0 : ℝ) < Real.tan (1 / 2 / 2) :=
      Real.tan_pos_of_pos_of_lt_pi_div_two (by norm_num) (by linarith [Real.pi_gt_three])
    exact clip_aspect_ne _ _ ht.ne' hs.ne' hn.ne' 1 2 (by norm_num)

/-! ## Rounding error of the binary32 matrix product -/

/-- Rounding to binary32 moves a number by at most the relative error `2^-24`
plus half the spacing `2^-149` of the subnormals. -/
theorem toFloat_err (x : ℚ) : |toFloat x - x| ≤ 2 ^ (-24 : ℤ) * |x| + 2 ^ (-150 : ℤ) := by
  have hη : (0 : ℚ) < 2 ^ (-150 : ℤ) := by positivity
  by_cases hx : x = 0
  · have h0 : toFloat 0 = 0 := by simp [toFloat, fpRound]
    rw [hx, h0, sub_zero, abs_zero, mul_zero, zero_add]
    exact hη.le
  have hpos : 0 < |x| := abs_pos.mpr hx
  refine le_trans (fpRound_sub_abs_le 24 (-126) x) ?_
  unfold ulpExp
  rcases le_or_lt (-126) (Int.log 2 |x|) with h | h
  · rw [max_eq_left h]
    have h1 : ((2 : ℕ) : ℚ) ^ Int.log 2 |x| ≤ |x| := Int.zpow_log_le_self (by norm_num) hpos
    have h2 : (2 : ℚ) ^ (Int.log 2 |x| - (((24 : ℕ) : ℤ) - 1)) / 2
        = 2 ^ (-24 : ℤ) * 2 ^ Int.log 2 |x| := by
      rw [show Int.log 2 |x| - (((24 : ℕ) : ℤ) - 1) = Int.log 2 |x| + (-23) by push_cast; ring,
        zpow_add₀ (by norm_num)]
      norm_num
      ring
    rw [h2]
    have h3 : (2 : ℚ) ^ (-24 : ℤ) * 2 ^ Int.log 2 |x| ≤ 2 ^ (-24 : ℤ) * |x| :=
      mul_le_mul_of_nonneg_left (by exact_mod_cast h1) (by positivity)
    linarith
  · rw [max_eq_right h.le]
    have h2 : (2 : ℚ) ^ ((-126 : ℤ) - (((24 : ℕ) : ℤ) - 1)) / 2 = 2 ^ (-150 : ℤ) := by
      norm_num
    rw [h2]
    have : (0 : ℚ) ≤ 2 ^ (-24 : ℤ) * |x| := by positivity
    linarith

/-- Rounding a number of magnitude at most `m`. -/
theorem toFloat_bound {x m : ℚ} (h : |x| ≤ m) :
    |toFloat x - x| ≤ m / 16777216 + 2 ^ (-150 : ℤ) ∧
      |toFloat x| ≤ m + m / 16777216 + 2 ^ (-150 : ℤ) := by
  have e := toFloat_err x
  have hu : (2 : ℚ) ^ (-24 : ℤ) = 1 / 16777216 := by norm_num
  rw [hu] at e
  have h1 : |toFloat x - x| ≤ m / 16777216 + 2 ^ (-150 : ℤ) := by linarith
  refine ⟨h1, ?_⟩
  have h2 : |toFloat x| ≤ |toFloat x - x| + |x| := by
    have := abs_add (toFloat x - x) x
    simpa using this
  linarith

/-- The binary32 sum, in order, of four rounded products of magnitude at most `m`. -/
theorem dot4_err (p0 p1 p2 p3 m : ℚ) (h0 : |p0| ≤ m) (h1 : |p1| ≤ m) (h2 : |p2| ≤ m)
    (h3 : |p3| ≤ m) :
    |toFloat (toFloat (toFloat (toFloat p0 + toFloat p1) + toFloat p2) + toFloat p3)
        - (p0 + p1 + p2 + p3)| ≤ 14 * (m / 16777216) + 8 * 2 ^ (-150 : ℤ) := by
  have hη : (0 : ℚ) < 2 ^ (-150 : ℤ) := by positivity
  have hη' : (2 : ℚ) ^ (-150 : ℤ) ≤ 1 / 16777216 := by
    rw [show (1 : ℚ) / 16777216 = 2 ^ (-24 : ℤ) by norm_num]
    exact zpow_le_zpow_right₀ (by norm_num) (by norm_num)
  have hm : 0 ≤ m := le_trans (abs_nonneg _) h0
  obtain ⟨a0, b0⟩ := toFloat_bound h0
  obtain ⟨a1, b1⟩ := toFloat_bound h1
  obtain ⟨a2, b2⟩ := toFloat_bound h2
  obtain ⟨a3, b3⟩ := toFloat_bound h3
  set r0 := toFloat p0
  set r1 := toFloat p1
  set r2 := toFloat p2
  set r3 := toFloat p3
  have x1 : |r0 + r1| ≤ 2 * (m + m / 16777216 + 2 ^ (-150 : ℤ)) :=
    le_trans (abs_add _ _) (by linarith)
  obtain ⟨c1, d1⟩ := toFloat_bound x1
  set s1 := toFloat (r0 + r1)
  have x2 : |s1 + r2| ≤ 2 * (m + m / 16777216 + 2 ^ (-150 : ℤ))
      + 2 * (m + m / 16777216 + 2 ^ (-150 : ℤ)) / 16777216 + 2 ^ (-150 : ℤ)
      + (m + m / 16777216 + 2 ^ (-150 : ℤ)) :=
    le_trans (abs_add _ _) (by linarith)
  obtain ⟨c2, d2⟩ := toFloat_bound x2
  set s2 := toFloat (s1 + r2)
  have x3 : |s2 + r3| ≤ (2 * (m + m / 16777216 + 2 ^ (-150 : ℤ))
      + 2 * (m + m / 16777216 + 2 ^ (-150 : ℤ)) / 16777216 + 2 ^ (-150 : ℤ)
      + (m + m / 16777216 + 2 ^ (-150 : ℤ)))
      + (2 * (m + m / 16777216 + 2 ^ (-150 : ℤ))
      + 2 * (m + m / 16777216 + 2 ^ (-150 : ℤ)) / 16777216 + 2 ^ (-150 : ℤ)
      + (m + m / 16777216 + 2 ^ (-150 : ℤ))) / 16777216 + 2 ^ (-150 : ℤ)
      + (m + m / 16777216 + 2 ^ (-150 : ℤ)) :=
    le_trans (abs_add _ _) (by linarith)
  obtain ⟨c3, d3⟩ := toFloat_bound x3
  set s3 := toFloat (s2 + r3)
  rw [abs_le] at a0 a1 a2 a3 c1 c2 c3 ⊢
  constructor <;> linarith [a0.1, a0.2, a1.1, a1.2, a2.1, a2.2, a3.1, a3.2, c1.1, c1.2,
    c2.1, c2.2, c3.1, c3.2]

/-- Entry (r, c) of the binary32 product. -/
theorem multiplyF32_apply (a b : Mat ℚ) (r c : Fin 4) :
    multiplyF32 a b (ix r c) =
      fadd (fadd (fadd (fmul (a (ix r 0)) (b (ix 0 c))) (fmul (a (ix r 1)) (b (ix 1 c))))
        (fmul (a (ix r 2)) (b (ix 2 c)))) (fmul (a (ix r 3)) (b (ix 3 c))) := by
  simp only [multiplyF32, ix_row, ix_col]

theorem abs_mul_sub_mul_le {x x' y y' e1 m1 e2 m2 : ℚ} (hx : |x - x'| ≤ e1) (hy : |y| ≤ m2)
    (hx' : |x'| ≤ m1) (hy' : |y - y'| ≤ e2) : |x * y - x' * y'| ≤ e1 * m2 + m1 * e2 := by
  have e : x * y - x' * y' = (x - x') * y + x' * (y - y') := by ring
  rw [e]
  refine le_trans (abs_add _ _) ?_
  rw [abs_mul, abs_mul]
  have h1 : |x - x'| * |y| ≤ e1 * m2 :=
    mul_le_mul hx hy (abs_nonneg _) (le_trans (abs_nonneg _) hx)
  have h2 : |x'| * |y - y'| ≤ m1 * e2 :=
    mul_le_mul hx' hy' (abs_nonneg _) (le_trans (abs_nonneg _) hx')
  linarith

theorem abs_mul_le_mul {x y m1 m2 : ℚ} (hx : |x| ≤ m1) (hy : |y| ≤ m2) : |x * y| ≤ m1 * m2 := by
  rw [abs_mul]
  exact mul_le_mul hx hy (abs_nonneg _) (le_trans (abs_nonneg _) hx)

/-- An array approximates itself without error. -/
theorem near_self {a : Mat ℚ} {m : ℚ} (h : ∀ n, |a n| ≤ m) : Near a a m 0 := by
  intro n
  simpa using h n

theorem near_mono {xf x : Mat ℚ} {m e m' e' : ℚ} (h : Near xf x m e) (hm : m ≤ m')
    (he : e ≤ e') : Near xf x m' e' :=
  fun n => ⟨le_trans (h n).1 he, le_trans (h n).2.1 hm, le_trans (h n).2.2 hm⟩

/-- Forward error of the binary32 product: if `pf` approximates `p` and `qf`
approximates `q`, then `multiplyF32 pf qf` approximates the exact product of
`p` and `q`. -/
theorem near_mul {pf p qf q : Mat ℚ} {m1 e1 m2 e2 : ℚ} (hp : Near pf p m1 e1)
    (hq : Near qf q m2 e2) :
    Near (multiplyF32 pf qf) (multiply p q)
      (4 * (m1 * m2) + (14 * (m1 * m2 / 16777216) + 8 * 2 ^ (-150 : ℤ)))
      (14 * (m1 * m2 / 16777216) + 8 * 2 ^ (-150 : ℤ) + 4 * (e1 * m2 + m1 * e2)) := by
  intro n
  rw [← ix_surj n]
  generalize (⟨n.val % 4, Nat.mod_lt _ (by norm_num)⟩ : Fin 4) = r
  generalize (⟨n.val / 4, by omega⟩ : Fin 4) = c
  have hη : (0 : ℚ) < 2 ^ (-150 : ℤ) := by positivity
  have hm1 : 0 ≤ m1 := le_trans (abs_nonneg _) (hp 0).2.1
  have hm2 : 0 ≤ m2 := le_trans (abs_nonneg _) (hq 0).2.1
  have hmm : 0 ≤ m1 * m2 := mul_nonneg hm1 hm2
  have b : ∀ k : Fin 4, |pf (ix r k) * qf (ix k c)| ≤ m1 * m2 :=
    fun k => abs_mul_le_mul (hp _).2.1 (hq _).2.1
  have b' : ∀ k : Fin 4, |p (ix r k) * q (ix k c)| ≤ m1 * m2 :=
    fun k => abs_mul_le_mul (hp _).2.2 (hq _).2.2
  have d : ∀ k : Fin 4, |pf (ix r k) * qf (ix k c) - p (ix r k) * q (ix k c)|
      ≤ e1 * m2 + m1 * e2 :=
    fun k => abs_mul_sub_mul_le (hp _).1 (hq _).2.1 (hp _).2.2 (hq _).1
  have hF := dot4_err _ _ _ _ _ (b 0) (b 1) (b 2) (b 3)
  have hE : multiply p q (ix r c) = p (ix r 0) * q (ix 0 c) + p (ix r 1) * q (ix 1 c)
      + p (ix r 2) * q (ix 2 c) + p (ix r 3) * q (ix 3 c) := by
    rw [multiply_apply, Fin.sum_univ_four]
  rw [multiplyF32_apply, hE]
  unfold fadd fmul
  have b0 := b 0; have b1 := b 1; have b2 := b 2; have b3 := b 3
  have c0 := b' 0; have c1 := b' 1; have c2 := b' 2; have c3 := b' 3
  have d0 := d 0; have d1 := d 1; have d2 := d 2; have d3 := d 3
  rw [abs_le] at hF b0 b1 b2 b3 c0 c1 c2 c3 d0 d1 d2 d3
  refine ⟨?_, ?_, ?_⟩ <;> rw [abs_le] <;> constructor <;> linarith

theorem eta_small : (2 : ℚ) ^ (-150 : ℤ) ≤ 1 / 1099511627776 := by
  rw [show (1 : ℚ) / 1099511627776 = 2 ^ (-40 : ℤ) by norm_num]
  exact zpow_le_zpow_right₀ (by norm_num) (by norm_num)

/-- Two computed arrays that approximate the same exact array are close. -/
theorem near_sub {xf yf x : Mat ℚ} {m e m' e' : ℚ} (hx : Near xf x m e)
    (hy : Near yf x m' e') (n : Fin 16) : |xf n - yf n| ≤ e + e' := by
  have a := (hx n).1
  have b := (hy n).1
  rw [abs_le] at a b ⊢
  constructor <;> linarith

/-- The binary32 product of two arrays with entries bounded by `A` and `B`. -/
theorem near_two {a b : Mat ℚ} {A B : ℚ} (hA : 1 ≤ A) (hB : 1 ≤ B) (ha : ∀ n, |a n| ≤ A)
    (hb : ∀ n, |b n| ≤ B) :
    Near (multiplyF32 a b) (multiply a b) (5 * (A * B)) (15 * (A * B) / 16777216) := by
  have h := near_mul (near_self ha) (near_self hb)
  have hη := eta_small
  have hη0 : (0 : ℚ) < 2 ^ (-150 : ℤ) := by positivity
  have hAB : 1 ≤ A * B := one_le_mul_of_one_le_of_one_le hA hB
  exact near_mono h (by linarith) (by linarith)

/-- The left bracketing of three arrays. -/
theorem near_three_left {a b c : Mat ℚ} {A B C : ℚ} (hA : 1 ≤ A) (hB : 1 ≤ B) (hC : 1 ≤ C)
    (ha : ∀ n, |a n| ≤ A) (hb : ∀ n, |b n| ≤ B) (hc : ∀ n, |c n| ≤ C) :
    Near (multiplyF32 (multiplyF32 a b) c) (multiply (multiply a b) c)
      (21 * (A * B * C)) (131 * (A * B * C) / 16777216) := by
  have h := near_mul (near_two hA hB ha hb) (near_self hc)
  have hη := eta_small
  have hη0 : (0 : ℚ) < 2 ^ (-150 : ℤ) := by positivity
  have hABC : 1 ≤ A * B * C :=
    one_le_mul_of_one_le_of_one_le (one_le_mul_of_one_le_of_one_le hA hB) hC
  exact near_mono h (by linarith) (by linarith)

/-- The right bracketing of three arrays. -/
theorem near_three_right {a b c : Mat ℚ} {A B C : ℚ} (hA : 1 ≤ A) (hB : 1 ≤ B) (hC : 1 ≤ C)
    (ha : ∀ n, |a n| ≤ A) (hb : ∀ n, |b n| ≤ B) (hc : ∀ n, |c n| ≤ C) :
    Near (multiplyF32 a (multiplyF32 b c)) (multiply a (multiply b c))
      (21 * (A * B * C)) (131 * (A * B * C) / 16777216) := by
  have h := near_mul (near_self ha) (near_two hB hC hb hc)
  have hη := eta_small
  have hη0 : (0 : ℚ) < 2 ^ (-150 : ℤ) := by positivity
  have hABC : 1 ≤ A * B * C :=
    one_le_mul_of_one_le_of_one_le (one_le_mul_of_one_le_of_one_le hA hB) hC
  exact near_mono h (by linarith) (by linarith)

/-- The five bracketings of four arrays, each against the exact product. -/
theorem near_four {p v t r : Mat ℚ} {P V T R : ℚ} (hP : 1 ≤ P) (hV : 1 ≤ V) (hT : 1 ≤ T)
    (hR : 1 ≤ R) (hp : ∀ n, |p n| ≤ P) (hv : ∀ n, |v n| ≤ V) (ht : ∀ n, |t n| ≤ T)
    (hr : ∀ n, |r n| ≤ R) :
    Near (multiplyF32 p (multiplyF32 v (multiplyF32 t r)))
        (multiply p (multiply v (multiply t r)))
        (101 * (P * V * T * R)) (951 * (P * V * T * R) / 16777216) ∧
      Near (multiplyF32 (multiplyF32 p v) (multiplyF32 t r))
        (multiply p (multiply v (multiply t r)))
        (101 * (P * V * T * R)) (951 * (P * V * T * R) / 16777216) ∧
      Near (multiplyF32 (multiplyF32 (multiplyF32 p v) t) r)
        (multiply p (multiply v (multiply t r)))
        (101 * (P * V * T * R)) (951 * (P * V * T * R) / 16777216) ∧
      Near (multiplyF32 (multiplyF32 p (multiplyF32 v t)) r)
        (multiply p (multiply v (multiply t r)))
        (101 * (P * V * T * R)) (951 * (P * V * T * R) / 16777216) ∧
      Near (multiplyF32 p (multiplyF32 (multiplyF32 v t) r))
        (multiply p (multiply v (multiply t r)))
        (101 * (P * V * T * R)) (951 * (P * V * T * R) / 16777216) := by
  have hη := eta_small
  have hη0 : (0 : ℚ) < 2 ^ (-150 : ℤ) := by positivity
  have hPV : 1 ≤ P * V := one_le_mul_of_one_le_of_one_le hP hV
  have hPVT : 1 ≤ P * V * T := one_le_mul_of_one_le_of_one_le hPV hT
  have hX : 1 ≤ P * V * T * R := one_le_mul_of_one_le_of_one_le hPVT hR
  have h1 := near_mul (near_self hp) (near_three_right hV hT hR hv ht hr)
  have h2 := near_mul (near_two hP hV hp hv) (near_two hT hR ht hr)
  have h3 := near_mul (near_three_left hP hV hT hp hv ht) (near_self hr)
  have h4 := near_mul (near_three_right hP hV hT hp hv ht) (near_self hr)
  have h5 := near_mul (near_self hp) (near_three_left hV hT hR hv ht hr)
  rw [matmul_assoc p v (multiply t r)] at h2
  rw [matmul_assoc (multiply p v) t r, matmul_assoc p v (multiply t r)] at h3
  rw [matmul_assoc p (multiply v t) r, matmul_assoc v t r] at h4
  rw [matmul_assoc v t r] at h5
  refine ⟨near_mono h1 ?_ ?_, near_mono h2 ?_ ?_, near_mono h3 ?_ ?_, near_mono h4 ?_ ?_,
    near_mono h5 ?_ ?_⟩ <;> linarith

theorem toFloat_zero : toFloat 0 = 0 := by simp [toFloat, fpRound]

theorem toFloat_one : toFloat 1 = 1 := by
  simpa using toFloat_grid 1 0 0 le_rfl (by norm_num) (by norm_num)

theorem toFloat_half : toFloat (1 / 2) = 1 / 2 := by
  have := toFloat_grid 1 (-1) 0 le_rfl (by rw [abs_le]; constructor <;> norm_num) (by norm_num)
  have e : (((1 : ℤ) : ℚ)) * 2 ^ (-1 : ℤ) = 1 / 2 := by norm_num
  rw [e] at this
  exact this

/-- The literal `0.1f`. -/
theorem toFloat_tenth : toFloat (1 / 10) = 13421773 / 134217728 := by
  have := fpRound_eval 24 (-126) (x := 1 / 10) (-4) 13421773
    (by norm_num) (by norm_num) (by norm_num) (by norm_num [abs_lt])
  unfold toFloat
  rw [this]
  norm_num

theorem toFloat_tenth_self : toFloat (13421773 / 134217728) = 13421773 / 134217728 := by
  have hu : ulpExp 24 (-126) (13421773 / 134217728) ≤ -27 := by
    rw [ulpExp_eq 24 (-126) (-4) (by norm_num) (by norm_num) (by norm_num)]
    norm_num
  exact fpRound_grid 24 (-126) 13421773 (-27) hu (by norm_num)

/-- The sum `0.1f + 0.1f` is exact. -/
theorem toFloat_two_tenths :
    toFloat (13421773 / 134217728 + 13421773 / 134217728) = 13421773 / 67108864 := by
  rw [show (13421773 : ℚ) / 134217728 + 13421773 / 134217728 = 13421773 / 67108864 by norm_num]
  have hu : ulpExp 24 (-126) (13421773 / 67108864) ≤ -26 := by
    rw [ulpExp_eq 24 (-126) (-3) (by norm_num) (by norm_num) (by norm_num)]
    norm_num
  exact fpRound_grid 24 (-126) 13421773 (-26) hu (by norm_num)

/-- The sum `0.5f + (0.1f + 0.1f)` rounds down. -/
theorem toFloat_half_add_two_tenths :
    toFloat (1 / 2 + 13421773 / 67108864) = 11744051 / 16777216 := by
  have := fpRound_eval 24 (-126) (x := 1 / 2 + 13421773 / 67108864) (-1) 11744051
    (by norm_num) (by norm_num) (by norm_num) (by norm_num [abs_lt])
  unfold toFloat
  rw [this]
  norm_num

/-- The sum `0.5f + 0.1f` rounds up to `0.6f`. -/
theorem toFloat_half_add_tenth :
    toFloat (1 / 2 + 13421773 / 134217728) = 5033165 / 8388608 := by
  have := fpRound_eval 24 (-126) (x := 1 / 2 + 13421773 / 134217728) (-1) 10066330
    (by norm_num) (by norm_num) (by norm_num) (by norm_num [abs_lt])
  unfold toFloat
  rw [this]
  norm_num

/-- The sum `0.6f + 0.1f` rounds up. -/
theorem toFloat_six_tenths_add_tenth :
    toFloat (5033165 / 8388608 + 13421773 / 134217728) = 2936013 / 4194304 := by
  have := fpRound_eval 24 (-126) (x := 5033165 / 8388608 + 13421773 / 134217728) (-1) 11744052
    (by norm_num) (by norm_num) (by norm_num) (by norm_num [abs_lt])
  unfold toFloat
  rw [this]
  norm_num

/-- Entry (0, 3) of the binary32 product of two translations along x is the rounded sum. -/
theorem multiplyF32_translate (x y : ℚ) (hx : toFloat x = x) (hy : toFloat y = y) :
    multiplyF32 (translate x 0 0) (translate y 0 0) (ix 0 0) = 1 ∧
      multiplyF32 (translate x 0 0) (translate y 0 0) (ix 0 1) = 0 ∧
      multiplyF32 (translate x 0 0) (translate y 0 0) (ix 0 2) = 0 ∧
      multiplyF32 (translate x 0 0) (translate y 0 0) (ix 0 3) = toFloat (y + x) ∧
      multiplyF32 (translate x 0 0) (translate y 0 0) (ix 1 3) = 0 ∧
      multiplyF32 (translate x 0 0) (translate y 0 0) (ix 2 3) = 0 ∧
      multiplyF32 (translate x 0 0) (translate y 0 0) (ix 3 3) = 1 := by
  have e : ∀ (z : ℚ) (r c : Fin 4), translate z 0 0 (ix r c) =
      if r = c then 1 else if c = 3 ∧ r = 0 then z else 0 := by
    intro z r c
    fin_cases r <;> fin_cases c <;> rfl
  simp only [multiplyF32_apply, e, fmul, fadd]
  simp [toFloat_zero, toFloat_one, hx, hy]

/-! ## Associativity of `multiply` on `GLfloat` arrays -/

/-- The entries of a translation matrix. -/
theorem translate_entry (x y z : ℚ) (r c : Fin 4) :
    translate x y z (ix r c) = if r = c then 1 else if c = 3 then ![x, y, z, 1] r else 0 := by
  fin_cases r <;> fin_cases c <;> rfl

/-- The entries of a translation matrix are bounded by the largest component. -/
theorem translate_abs_le (x y z E : ℚ) (hE : 1 ≤ E) (hx : |x| ≤ E) (hy : |y| ≤ E)
    (hz : |z| ≤ E) (n : Fin 16) : |translate x y z n| ≤ E := by
  have h1 : |(1 : ℚ)| ≤ E := by simpa using hE
  have h0 : |(0 : ℚ)| ≤ E := by simp; linarith
  rw [← ix_surj n, translate_entry]
  generalize (⟨n.val % 4, Nat.mod_lt _ (by norm_num)⟩ : Fin 4) = r
  split_ifs
  · exact h1
  · fin_cases r
    · exact hx
    · exact hy
    · exact hz
    · exact h1
  · exact h0

/-- C9 (counterexample): for the translation matrices `T(0.1f)`, `T(0.1f)`, `T(0.5f)`
the two bracketings of the binary32 product differ in the entry of index 12:
`(0.5 + (0.1f + 0.1f))` rounds to `11744051 / 2^24` and `((0.5 + 0.1f) + 0.1f)`
to `11744052 / 2^24`. -/
theorem multiplyF32_not_associative :
    multiplyF32 (multiplyF32 (translate (toFloat (1 / 10)) 0 0) (translate (toFloat (1 / 10)) 0 0))
        (translate (1 / 2) 0 0) (ix 0 3) = 11744051 / 16777216 ∧
      multiplyF32 (translate (toFloat (1 / 10)) 0 0)
        (multiplyF32 (translate (toFloat (1 / 10)) 0 0) (translate (1 / 2) 0 0)) (ix 0 3)
        = 11744052 / 16777216 ∧
      multiplyF32 (multiplyF32 (translate (toFloat (1 / 10)) 0 0) (translate (toFloat (1 / 10)) 0 0))
          (translate (1 / 2) 0 0) ≠
        multiplyF32 (translate (toFloat (1 / 10)) 0 0)
          (multiplyF32 (translate (toFloat (1 / 10)) 0 0) (translate (1 / 2) 0 0)) := by
  have e : ∀ (z : ℚ) (r c : Fin 4), translate z 0 0 (ix r c) =
      if r = c then 1 else if c = 3 ∧ r = 0 then z else 0 := by
    intro z r c
    fin_cases r <;> fin_cases c <;> rfl
  obtain ⟨a0, a1, a2, a3, -, -, -⟩ := multiplyF32_translate (13421773 / 134217728)
    (13421773 / 134217728) toFloat_tenth_self toFloat_tenth_self
  obtain ⟨-, -, -, b0, b1, b2, b3⟩ := multiplyF32_translate (13421773 / 134217728)
    (1 / 2) toFloat_tenth_self toFloat_half
  rw [toFloat_two_tenths] at a3
  rw [toFloat_half_add_tenth] at b0
  have hl : multiplyF32 (multiplyF32 (translate (toFloat (1 / 10)) 0 0)
      (translate (toFloat (1 / 10)) 0 0)) (translate (1 / 2) 0 0) (ix 0 3)
      = 11744051 / 16777216 := by
    rw [toFloat_tenth, multiplyF32_apply, a0, a1, a2, a3]
    simp only [e, fmul, fadd]
    simp [toFloat_zero]
    have t1 : toFloat (13421773 / 67108864) = 13421773 / 67108864 := by
      have := toFloat_two_tenths
      rw [show (13421773 : ℚ) / 134217728 + 13421773 / 134217728 = 13421773 / 67108864
        by norm_num] at this
      exact this
    have t0 : toFloat 2⁻¹ = 2⁻¹ := by simpa using toFloat_half
    rw [t0, t0, t0, t1]
    have := toFloat_half_add_two_tenths
    rw [show (1 : ℚ) / 2 = 2⁻¹ by norm_num] at this
    rw [this]
  have hr : multiplyF32 (translate (toFloat (1 / 10)) 0 0)
      (multiplyF32 (translate (toFloat (1 / 10)) 0 0) (translate (1 / 2) 0 0)) (ix 0 3)
      = 11744052 / 16777216 := by
    rw [toFloat_tenth, multiplyF32_apply, b0, b1, b2, b3]
    simp only [e, fmul, fadd]
    simp [toFloat_zero]
    have t2 : toFloat (5033165 / 8388608) = 5033165 / 8388608 := by
      have hu : ulpExp 24 (-126) (5033165 / 8388608) ≤ -23 := by
        rw [ulpExp_eq 24 (-126) (-1) (by norm_num) (by norm_num) (by norm_num)]
        norm_num
      exact fpRound_grid 24 (-126) 5033165 (-23) hu (by norm_num)
    rw [t2, t2, t2, toFloat_tenth_self, toFloat_six_tenths_add_tenth]
    norm_num
  refine ⟨hl, hr, fun h => ?_⟩
  have := congrFun h (ix 0 3)
  rw [hl, hr] at this
  norm_num at this

/-- C9 (amended): `multiply` is associative up to floating tolerance.  In exact
arithmetic `multiply(multiply(a,b),c)` equals `multiply(a,multiply(b,c))`.
Computed on `GLfloat` arrays in binary32, for `a`, `b`, `c` with entries of
magnitude at most `A`, `B`, `C` (each at least 1, product at most `2^120`)
the two bracketings differ in every entry by at most `2^-15 * A * B * C` and
stay below `2^127`.  Every frame of `app()` builds its clip matrix as
`mp x (mv x (mt x mr))`; for arrays `p`, `v`, `t`, `r` with entries of
magnitude at most `P`, `V`, `T`, `R` that bracketing agrees in every entry to
within `2^-13 * P * V * T * R` with each of the four other bracketings. -/
theorem multiply_associative (a b c : Mat ℚ) (A B C : ℚ) (hA : 1 ≤ A) (hB : 1 ≤ B)
    (hC : 1 ≤ C) (hABC : A * B * C ≤ 2 ^ 120) (ha : ∀ n, |a n| ≤ A) (hb : ∀ n, |b n| ≤ B)
    (hc : ∀ n, |c n| ≤ C) (p v t r : Mat ℚ) (P V T R : ℚ) (hP : 1 ≤ P) (hV : 1 ≤ V)
    (hT : 1 ≤ T) (hR : 1 ≤ R) (hPVTR : P * V * T * R ≤ 2 ^ 120) (hp : ∀ n, |p n| ≤ P)
    (hv : ∀ n, |v n| ≤ V) (ht : ∀ n, |t n| ≤ T) (hr : ∀ n, |r n| ≤ R) :
    multiply (multiply a b) c = multiply a (multiply b c) ∧
      (∀ n, |multiplyF32 (multiplyF32 a b) c n - multiplyF32 a (multiplyF32 b c) n|
          ≤ 2 ^ (-15 : ℤ) * (A * B * C) ∧
        |multiplyF32 (multiplyF32 a b) c n| ≤ 2 ^ 127 ∧
        |multiplyF32 a (multiplyF32 b c) n| ≤ 2 ^ 127) ∧
      (∀ (L : Lib ℚ) (e aspect : ℚ), (frame L.float32 e aspect).mc =
        multiplyF32 (frameMp L aspect) (multiplyF32 (frameMv L)
          (multiplyF32 (frameMt L (frameT e)) (frameMr L (frameT e))))) ∧
      ∀ n, |multiplyF32 p (multiplyF32 v (multiplyF32 t r)) n| ≤ 2 ^ 127 ∧
        |multiplyF32 p (multiplyF32 v (multiplyF32 t r)) n -
            multiplyF32 (multiplyF32 p v) (multiplyF32 t r) n|
          ≤ 2 ^ (-13 : ℤ) * (P * V * T * R) ∧
        |multiplyF32 p (multiplyF32 v (multiplyF32 t r)) n -
            multiplyF32 (multiplyF32 (multiplyF32 p v) t) r n|
          ≤ 2 ^ (-13 : ℤ) * (P * V * T * R) ∧
        |multiplyF32 p (multiplyF32 v (multiplyF32 t r)) n -
            multiplyF32 (multiplyF32 p (multiplyF32 v t)) r n|
          ≤ 2 ^ (-13 : ℤ) * (P * V * T * R) ∧
        |multiplyF32 p (multiplyF32 v (multiplyF32 t r)) n -
            multiplyF32 p (multiplyF32 (multiplyF32 v t) r) n|
          ≤ 2 ^ (-13 : ℤ) * (P * V * T * R) := by
  have hABC1 : 1 ≤ A * B * C :=
    one_le_mul_of_one_le_of_one_le (one_le_mul_of_one_le_of_one_le hA hB) hC
  have hX1 : 1 ≤ P * V * T * R :=
    one_le_mul_of_one_le_of_one_le
      (one_le_mul_of_one_le_of_one_le (one_le_mul_of_one_le_of_one_le hP hV) hT) hR
  have e15 : (2 : ℚ) ^ (-15 : ℤ) = 1 / 32768 := by norm_num
  have e13 : (2 : ℚ) ^ (-13 : ℤ) = 1 / 8192 := by norm_num
  have e120 : (2 : ℚ) ^ 120 = 1329227995784915872903807060280344576 := by norm_num
  have e127 : (2 : ℚ) ^ 127 = 170141183460469231731687303715884105728 := by norm_num
  rw [e120] at hABC hPVTR
  have h3l := near_three_left hA hB hC ha hb hc
  have h3r := near_three_right hA hB hC ha hb hc
  rw [← matmul_assoc a b c] at h3r
  obtain ⟨h1, h2, h3, h4, h5⟩ := near_four hP hV hT hR hp hv ht hr
  refine ⟨matmul_assoc a b c, fun n => ⟨?_, ?_, ?_⟩, fun L e aspect => rfl, fun n => ?_⟩
  · have := near_sub h3l h3r n
    rw [e15]
    linarith
  · have := (h3l n).2.1
    rw [e127]
    linarith
  · have := (h3r n).2.1
    rw [e127]
    linarith
  · rw [e13, e127]
    have m1 := (h1 n).2.1
    have d2 := near_sub h1 h2 n
    have d3 := near_sub h1 h3 n
    have d4 := near_sub h1 h4 n
    have d5 := near_sub h1 h5 n
    refine ⟨?_, ?_, ?_, ?_, ?_⟩ <;> linarith

theorem multiply_associative_witness :
    (1 : ℚ) ≤ 1 ∧ (1 : ℚ) ≤ 5 ∧ (1 : ℚ) ≤ 3 ∧ (1 : ℚ) * 1 * 1 ≤ 2 ^ 120 ∧
      (∀ n, |(translate (13421773 / 134217728) 0 0 : Mat ℚ) n| ≤ 1) ∧
      (∀ n, |(translate (1 / 2) 0 0 : Mat ℚ) n| ≤ 1) ∧
      (1 : ℚ) * 5 * 3 * 1 ≤ 2 ^ 120 ∧
      (∀ n, |(translate 1 0 0 : Mat ℚ) n| ≤ 1) ∧
      (∀ n, |(translate (-3) (-4) (-5) : Mat ℚ) n| ≤ 5) ∧
      (∀ n, |(translate (-2) (-1) (-3) : Mat ℚ) n| ≤ 3) ∧
      (∀ n, |(translate 0 0 0 : Mat ℚ) n| ≤ 1) ∧
      multiply (multiply (translate (13421773 / 134217728) 0 0 : Mat ℚ)
          (translate (13421773 / 134217728) 0 0)) (translate (1 / 2) 0 0) =
        multiply (translate (13421773 / 134217728) 0 0)
          (multiply (translate (13421773 / 134217728) 0 0) (translate (1 / 2) 0 0)) ∧
      (∀ n, |multiplyF32 (multiplyF32 (translate (13421773 / 134217728) 0 0)
              (translate (13421773 / 134217728) 0 0)) (translate (1 / 2) 0 0) n -
            multiplyF32 (translate (13421773 / 134217728) 0 0)
              (multiplyF32 (translate (13421773 / 134217728) 0 0) (translate (1 / 2) 0 0)) n|
          ≤ 2 ^ (-15 : ℤ) * (1 * 1 * 1) ∧
        |multiplyF32 (multiplyF32 (translate (13421773 / 134217728) 0 0)
            (translate (13421773 / 134217728) 0 0)) (translate (1 / 2) 0 0) n| ≤ 2 ^ 127 ∧
        |multiplyF32 (translate (13421773 / 134217728) 0 0)
            (multiplyF32 (translate (13421773 / 134217728) 0 0) (translate (1 / 2) 0 0)) n|
          ≤ 2 ^ 127) ∧
      (∀ (L : Lib ℚ) (e aspect : ℚ), (frame L.float32 e aspect).mc =
        multiplyF32 (frameMp L aspect) (multiplyF32 (frameMv L)
          (multiplyF32 (frameMt L (frameT e)) (frameMr L (frameT e))))) ∧
      ∀ n, |multiplyF32 (translate 1 0 0) (multiplyF32 (translate (-3) (-4) (-5))
            (multiplyF32 (translate (-2) (-1) (-3)) (translate 0 0 0))) n| ≤ 2 ^ 127 ∧
        |multiplyF32 (translate 1 0 0) (multiplyF32 (translate (-3) (-4) (-5))
              (multiplyF32 (translate (-2) (-1) (-3)) (translate 0 0 0))) n -
            multiplyF32 (multiplyF32 (translate 1 0 0) (translate (-3) (-4) (-5)))
              (multiplyF32 (translate (-2) (-1) (-3)) (translate 0 0 0)) n|
          ≤ 2 ^ (-13 : ℤ) * (1 * 5 * 3 * 1) ∧
        |multiplyF32 (translate 1 0 0) (multiplyF32 (translate (-3) (-4) (-5))
              (multiplyF32 (translate (-2) (-1) (-3)) (translate 0 0 0))) n -
            multiplyF32 (multiplyF32 (multiplyF32 (translate 1 0 0) (translate (-3) (-4) (-5)))
              (translate (-2) (-1) (-3))) (translate 0 0 0) n|
          ≤ 2 ^ (-13 : ℤ) * (1 * 5 * 3 * 1) ∧
        |multiplyF32 (translate 1 0 0) (multiplyF32 (translate (-3) (-4) (-5))
              (multiplyF32 (translate (-2) (-1) (-3)) (translate 0 0 0))) n -
            multiplyF32 (multiplyF32 (translate 1 0 0) (multiplyF32 (translate (-3) (-4) (-5))
              (translate (-2) (-1) (-3)))) (translate 0 0 0) n|
          ≤ 2 ^ (-13 : ℤ) * (1 * 5 * 3 * 1) ∧
        |multiplyF32 (translate 1 0 0) (multiplyF32 (translate (-3) (-4) (-5))
              (multiplyF32 (translate (-2) (-1) (-3)) (translate 0 0 0))) n -
            multiplyF32 (translate 1 0 0) (multiplyF32 (multiplyF32 (translate (-3) (-4) (-5))
              (translate (-2) (-1) (-3))) (translate 0 0 0)) n|
          ≤ 2 ^ (-13 : ℤ) * (1 * 5 * 3 * 1) :=
  ⟨le_rfl, by norm_num, by norm_num, by norm_num,
    translate_abs_le _ 0 0 1 le_rfl (by norm_num [abs_le]) (by norm_num) (by norm_num),
    translate_abs_le _ 0 0 1 le_rfl (by norm_num [abs_le]) (by norm_num) (by norm_num),
    by norm_num,
    translate_abs_le 1 0 0 1 le_rfl (by norm_num) (by norm_num) (by norm_num),
    translate_abs_le (-3) (-4) (-5) 5 (by norm_num) (by norm_num [abs_le])
      (by norm_num [abs_le]) (by norm_num [abs_le]),
    translate_abs_le (-2) (-1) (-3) 3 (by norm_num) (by norm_num [abs_le])
      (by norm_num [abs_le]) (by norm_num [abs_le]),
    translate_abs_le 0 0 0 1 le_rfl (by norm_num) (by norm_num) (by norm_num),
    multiply_associative _ _ _ 1 1 1 le_rfl le_rfl le_rfl (by norm_num)
      (translate_abs_le _ 0 0 1 le_rfl (by norm_num [abs_le]) (by norm_num) (by norm_num))
      (translate_abs_le _ 0 0 1 le_rfl (by norm_num [abs_le]) (by norm_num) (by norm_num))
      (translate_abs_le _ 0 0 1 le_rfl (by norm_num [abs_le]) (by norm_num) (by norm_num))
      _ _ _ _ 1 5 3 1 le_rfl (by norm_num) (by norm_num) le_rfl (by norm_num)
      (translate_abs_le 1 0 0 1 le_rfl (by norm_num) (by norm_num) (by norm_num))
      (translate_abs_le (-3) (-4) (-5) 5 (by norm_num) (by norm_num [abs_le])
        (by norm_num [abs_le]) (by norm_num [abs_le]))
      (translate_abs_le (-2) (-1) (-3) 3 (by norm_num) (by norm_num [abs_le])
        (by norm_num [abs_le]) (by norm_num [abs_le]))
      (translate_abs_le 0 0 0 1 le_rfl (by norm_num) (by norm_num) (by norm_num))⟩

end GgSample05
